import Mathlib

/-!
# Falling-block engine (`src/src/blocks.c`): embedding and verified properties

The C functions of `blocks.c` are embedded as pure functions on explicit state.

* `pgame` (the global game object) is a value of `block_game`; a function that
  only reads it takes it as an argument, a function that writes it returns the
  new value.
* `struct block *` arguments are `block` values; the `if (!block)` guards have no
  counterpart (a value is never a null pointer).
* Machine integers are `Nat`/`Int` with the wrap written out: `int8_t` locals go
  through `wrap8`, `uint8_t` fields are reduced `% 256`, `uint16_t` fields
  `% 65536`, `uint32_t` fields `% 4294967296`.  Field widths are those of
  `include/blocks.h`.
* `update_tick_speed` only writes `pgame->nsec`, a floating-point derived delay
  that no other function of the engine reads; the tick delay is not part of the
  embedding.  `debug`, `log_info`, `draw_game` and the `db_*` calls are
  presentation or persistence and have no effect on the state modelled here.
-/

namespace Tetris

/-! ## Data model -/

/-- Conversion of a C `int` to `int8_t` (two's-complement wrap-around). -/
def wrap8 (v : Int) : Int := (v + 128) % 256 - 128

/-- One element of `block.p`: `struct { int8_t x, y; }`. -/
structure pieces where
  x : Int
  y : Int
deriving DecidableEq, Repr

/-- The `struct block` of `blocks.c`: pivot position (`uint8_t col_off, row_off`),
colour, shape tag and the array `p[4]` of pivot-relative offsets. -/
structure block where
  col_off : Nat
  row_off : Nat
  color : Nat
  type : Nat
  p0 : pieces
  p1 : pieces
  p2 : pieces
  p3 : pieces
deriving DecidableEq, Repr

/-- The array `block->p` in index order; every `for (i = 0; i < LEN(block->p); i++)`
loop of the source runs over this list. -/
def block.p (b : block) : List pieces := [b.p0, b.p1, b.p2, b.p3]

/-- Shape tags, the anonymous `enum` of `blocks.c`. -/
def SQUARE_BLOCK : Nat := 0
def LINE_BLOCK : Nat := 1
def T_BLOCK : Nat := 2
def L_BLOCK : Nat := 3
def L_REV_BLOCK : Nat := 4
def Z_BLOCK : Nat := 5
def Z_REV_BLOCK : Nat := 6
def NUM_BLOCKS : Nat := 7

/-- Difficulty tiers, `enum block_diff`. -/
def DIFF_EASY : Nat := 0
def DIFF_NORMAL : Nat := 1
def DIFF_HARD : Nat := 2

/-- Movement commands, `enum block_cmd`. -/
inductive block_cmd where
  | MOVE_LEFT
  | MOVE_RIGHT
  | MOVE_COUNTER_CLOCKWISE
  | MOVE_CLOCKWISE
  | MOVE_DOWN
  | MOVE_DROP
  | MOVE_SAVE_PIECE
deriving DecidableEq, Repr

/-- Modelled from the spec: the constant `BLOCKS_ROWS` is used by `blocks_init` but its
definition is not among the sources.  The board is "10x22", `blocks_init` sets
`height = width*2 + 2 = 22`, and `include/blocks.h` has `BLOCKS_MAX_ROWS 22`. -/
def BLOCKS_ROWS : Nat := 22

/-- Modelled from the spec: the constant `BLOCKS_COLUMNS` (see `BLOCKS_ROWS`);
`include/blocks.h` has `BLOCKS_MAX_COLUMNS 10`. -/
def BLOCKS_COLUMNS : Nat := 10

/-- The `struct block_game` behind `pgame`.  `spaces` is the array of `uint16_t` row
bit-fields, `colors` the parallel colour grid; `cur`, `next` and `save` point into the
static array `blocks[3]` and are kept as indices (`save = none` is `NULL`).  `level` and
`lines_destroyed` are `uint16_t`, `score` is `uint32_t` (`include/blocks.h`).  The
declarations of `width`, `height` and `diff` are not among the sources: they are natural
numbers here, compared with the `int8_t` locals as C compares a narrower unsigned field
with them (after promotion to `int`). -/
structure block_game where
  width : Nat
  height : Nat
  diff : Nat
  level : Nat
  lines_destroyed : Nat
  spaces : List Nat
  score : Nat
  colors : List (List Nat)
  pause : Bool
  lose : Bool
  quit : Bool
  cur : Fin 3
  next : Fin 3
  save : Option (Fin 3)
deriving DecidableEq, Repr

/-- The macro `blocks_at_yx(y, x)`, `pgame->spaces[(y)] & (1 << (x))`: non-zero iff the
cell is occupied.  In C the macro is defined only for a row index inside the array and
a non-negative shift; here an index past the end of `spaces` reads as `0` and a negative
argument counts as `0`.  `rotate_block`, `translate_block` and `destroy_lines` call it
with `0 <= y < height` and `0 <= x < width` only; `drop_block` does so for a block that
is on the board. -/
def blocks_at_yx (g : block_game) (y x : Int) : Nat :=
  g.spaces.getD y.toNat 0 &&& (1 <<< x.toNat)

/-- Column of the absolute cell of offset `q`, as `write_block` computes it:
`int8_t px = block->col_off + block->p[i].x`. -/
def cell_x (b : block) (q : pieces) : Int := wrap8 (b.col_off + q.x)

/-- Row of the absolute cell of offset `q`, as `write_block` computes it:
`int8_t py = block->row_off + block->p[i].y`. -/
def cell_y (b : block) (q : pieces) : Int := wrap8 (b.row_off + q.y)

/-- The guard shared by `rotate_block` and `translate_block`:
`bounds_x < 0 || bounds_x >= width || bounds_y < 0 || bounds_y >= height ||
blocks_at_yx (bounds_y, bounds_x)`. -/
def blocked_at (g : block_game) (bounds_x bounds_y : Int) : Bool :=
  decide (bounds_x < 0) || decide (bounds_x ≥ (g.width : Int)) ||
  decide (bounds_y < 0) || decide (bounds_y ≥ (g.height : Int)) ||
  decide (blocks_at_yx g bounds_y bounds_x ≠ 0)

/-! ## Piece operations -/

/-- The rewrite of one offset in the second loop of `rotate_block`:
`new_x = p.y * (-mod); new_y = p.x * mod` (both `int8_t`). -/
def rotate_piece (mod : Int) (q : pieces) : pieces :=
  { x := wrap8 (q.y * (-mod)), y := wrap8 (q.x * mod) }

/-- The direction factor of `rotate_block`: `int8_t mod = 1; if (cmd ==
MOVE_COUNTER_CLOCKWISE) mod = -1;`. -/
def rotate_mod (cmd : block_cmd) : Int :=
  if cmd = block_cmd.MOVE_COUNTER_CLOCKWISE then -1 else 1

/-- The second loop of `rotate_block`: all four offsets rewritten. -/
def rotate_pieces (mod : Int) (b : block) : block :=
  { b with p0 := rotate_piece mod b.p0, p1 := rotate_piece mod b.p1,
           p2 := rotate_piece mod b.p2, p3 := rotate_piece mod b.p3 }

/-- The function `rotate_block`: returns `1` without looking at the board for the square,
`-1` (nothing written) if one of the four rotated cells is out of bounds or occupied,
otherwise rewrites the four offsets and returns `1`. -/
def rotate_block (g : block_game) (b : block) (cmd : block_cmd) : Int × block :=
  if b.type = SQUARE_BLOCK then (1, b)
  else if b.p.any (fun q =>
      blocked_at g (wrap8 (q.y * (-(rotate_mod cmd)) + b.col_off))
        (wrap8 (q.x * (rotate_mod cmd) + b.row_off)))
  then (-1, b)
  else (1, rotate_pieces (rotate_mod cmd) b)

/-- The direction of `translate_block`: `int8_t dir = 1; if (cmd == MOVE_LEFT) dir = -1;`. -/
def translate_dir (cmd : block_cmd) : Int :=
  if cmd = block_cmd.MOVE_LEFT then -1 else 1

/-- The function `translate_block`: `dir = -1` for `MOVE_LEFT`, `+1` otherwise; rejects
(`-1`) on the first cell whose candidate position is out of bounds or occupied, otherwise
`col_off += dir` (a `uint8_t`). -/
def translate_block (g : block_game) (b : block) (cmd : block_cmd) : Int × block :=
  if b.p.any (fun q =>
      blocked_at g (wrap8 (q.x + b.col_off + translate_dir cmd)) (wrap8 (q.y + b.row_off)))
  then (-1, b)
  else (1, { b with col_off := (((b.col_off : Int) + translate_dir cmd) % 256).toNat })

/-- The function `drop_block`: returns `0` on the first cell whose position one row down
is at or past `height` or occupied, otherwise `row_off++` (a `uint8_t`) and returns `1`.
There is no test of `bounds_y < 0` or of the column in the source. -/
def drop_block (g : block_game) (b : block) : Int × block :=
  if b.p.any (fun q =>
      decide (wrap8 (q.y + b.row_off + 1) ≥ (g.height : Int)) ||
      decide (blocks_at_yx g (wrap8 (q.y + b.row_off + 1)) (wrap8 (q.x + b.col_off)) ≠ 0))
  then (0, b)
  else (1, { b with row_off := (b.row_off + 1) % 256 })

/-- The loop `while (drop_block (b) == 1);` of the hard drop (`case 'W'` of
`blocks_input`, and the ghost of `draw_game`), with a bound on the iterations:
`none` when the bound is used up before `drop_block` reports blocked. -/
def hard_drop : Nat → block_game → block → Option block
  | 0, _, _ => none
  | fuel + 1, g, b =>
    if (drop_block g b).1 = 1 then hard_drop fuel g (drop_block g b).2
    else some (drop_block g b).2

/-- The function `write_block`: a no-op if one of the four cells is outside the board,
otherwise sets the bit of each cell in its `uint16_t` row and records the colour. -/
def write_block (g : block_game) (b : block) : block_game :=
  if b.p.any (fun q =>
      decide (cell_x b q < 0) || decide (cell_x b q ≥ (g.width : Int)) ||
      decide (cell_y b q < 0) || decide (cell_y b q ≥ (g.height : Int)))
  then g
  else b.p.foldl (fun acc q =>
      { acc with
        spaces := acc.spaces.set (cell_y b q).toNat
          ((acc.spaces.getD (cell_y b q).toNat 0 ||| (1 <<< (cell_x b q).toNat)) % 65536)
        colors := acc.colors.set (cell_y b q).toNat
          ((acc.colors.getD (cell_y b q).toNat []).set (cell_x b q).toNat (b.color % 256)) })
    g

/-! ## Line clearing -/

/-- The first loop nest of `destroy_lines`: is some cell of rows 0 and 1, columns
`0 .. width-1`, occupied?  (`for i < 2, for j < width: if (blocks_at_yx(i, j)) lose = true`.) -/
def hidden_rows_occupied (g : block_game) : Bool :=
  (List.range 2).any (fun i =>
    (List.range g.width).any (fun j => decide (blocks_at_yx g i j ≠ 0)))

/-- The effect of the first loop nest of `destroy_lines`: `lose = true` if a hidden row
holds a block, nothing otherwise. -/
def flag_loss (g : block_game) : block_game :=
  if hidden_rows_occupied g then { g with lose := true } else g

/-- The column scan of one row in `destroy_lines`,
`for (; j < width; j++) if (blocks_at_yx (i, j) == 0) break;`:
the value of `j` when the loop is left, started at `j` with `n` columns to go. -/
def scan_row (g : block_game) (i : Int) : Nat → Nat → Nat
  | 0, j => j
  | n + 1, j => if blocks_at_yx g i j = 0 then j else scan_row g i n (j + 1)

/-- The shift loop of `destroy_lines`,
`for (k = i; k > 0; k--) spaces[k] = spaces[k-1];`. -/
def shift_down (spaces : List Nat) : Nat → List Nat
  | 0 => spaces
  | k + 1 => shift_down (spaces.set (k + 1) (spaces.getD k 0)) k

/-- The row loop of `destroy_lines`, `for (int8_t i = height-1; i >= 2; i--)`, from the
state (`i`, board, `destroyed`): a row with a gap is skipped (`continue`, then `i--`); a
full row is zeroed, `destroyed++` (a `uint8_t`), the rows above are shifted down and the
same index is examined again (`i++` followed by the `i--` of the loop).  The first
argument bounds the number of iterations; `none` when it is used up. -/
def destroy_loop : Nat → block_game → Int → Nat → Option (block_game × Nat)
  | 0, _, _, _ => none
  | fuel + 1, g, i, destroyed =>
    if i ≥ 2 then
      if scan_row g i g.width 0 ≠ g.width then
        destroy_loop fuel g (wrap8 (i - 1)) destroyed
      else
        destroy_loop fuel
          { g with spaces := shift_down (g.spaces.set i.toNat 0) i.toNat }
          (wrap8 (wrap8 (i + 1) - 1)) ((destroyed + 1) % 256)
    else some (g, destroyed)

/-- The tail of `destroy_lines` after the row loop: `lines_destroyed += destroyed`
(`uint16_t`), the level-up test `lines_destroyed >= level*2 + 5` with `level++` and the
reset of the counter, then `score += destroyed * (level * (diff+1))` (`uint32_t`), which
uses the level after the level-up. -/
def tally (g : block_game) (destroyed : Nat) : block_game :=
  let g1 := { g with lines_destroyed := (g.lines_destroyed + destroyed) % 65536 }
  let g2 := if g1.lines_destroyed ≥ g1.level * 2 + 5
    then { g1 with level := (g1.level + 1) % 65536, lines_destroyed := 0 }
    else g1
  { g2 with score := (g2.score + destroyed * (g2.level * (g2.diff + 1))) % 4294967296 }

/-- The function `destroy_lines`: flags the loss if a hidden row holds a block, runs the
row loop from `i = height-1`, then tallies lines, level and score; returns the number of
destroyed rows together with the new game.  `none` when the row loop does not finish
within `fuel` iterations. -/
def destroy_lines (fuel : Nat) (g : block_game) : Option (Nat × block_game) :=
  match destroy_loop fuel (flag_loss g) (wrap8 ((g.height : Int) - 1)) 0 with
  | none => none
  | some (g1, destroyed) => some (destroyed, tally g1 destroyed)

/-! ## Session: the game and the three blocks -/

/-- The game object together with the static array `blocks[3]`. -/
structure session where
  game : block_game
  blocks0 : block
  blocks1 : block
  blocks2 : block
deriving DecidableEq, Repr

/-- Read `blocks[i]`. -/
def session.blocks (s : session) (i : Fin 3) : block :=
  if i.val = 0 then s.blocks0 else if i.val = 1 then s.blocks1 else s.blocks2

/-- Write `blocks[i]`. -/
def session.set_block (s : session) (i : Fin 3) (b : block) : session :=
  if i.val = 0 then { s with blocks0 := b }
  else if i.val = 1 then { s with blocks1 := b }
  else { s with blocks2 := b }

/-- The function `random_block`, with the value `r` returned by `rand ()`:
`type = (uint8_t) r % NUM_BLOCKS`, the pivot at column `width/2` and row 1, `color++`,
then the offsets of the shape (the line also moves its pivot one column left). -/
def random_block (width : Nat) (r : Nat) (b : block) : block :=
  let b1 : block := { b with type := (r % 256) % NUM_BLOCKS, col_off := (width / 2) % 256,
                             row_off := 1, color := (b.color + 1) % 256 }
  if b1.type = SQUARE_BLOCK then
    { b1 with p0 := ⟨-1, -1⟩, p1 := ⟨0, -1⟩, p2 := ⟨-1, 0⟩, p3 := ⟨0, 0⟩ }
  else if b1.type = LINE_BLOCK then
    { b1 with col_off := (b1.col_off + 255) % 256,
              p0 := ⟨-1, 0⟩, p1 := ⟨0, 0⟩, p2 := ⟨1, 0⟩, p3 := ⟨2, 0⟩ }
  else if b1.type = T_BLOCK then
    { b1 with p0 := ⟨0, -1⟩, p1 := ⟨-1, 0⟩, p2 := ⟨0, 0⟩, p3 := ⟨1, 0⟩ }
  else if b1.type = L_BLOCK then
    { b1 with p0 := ⟨1, -1⟩, p1 := ⟨-1, 0⟩, p2 := ⟨0, 0⟩, p3 := ⟨1, 0⟩ }
  else if b1.type = L_REV_BLOCK then
    { b1 with p0 := ⟨-1, -1⟩, p1 := ⟨-1, 0⟩, p2 := ⟨0, 0⟩, p3 := ⟨1, 0⟩ }
  else if b1.type = Z_BLOCK then
    { b1 with p0 := ⟨-1, -1⟩, p1 := ⟨0, -1⟩, p2 := ⟨0, 0⟩, p3 := ⟨1, 0⟩ }
  else if b1.type = Z_REV_BLOCK then
    { b1 with p0 := ⟨0, -1⟩, p1 := ⟨1, -1⟩, p2 := ⟨-1, 0⟩, p3 := ⟨0, 0⟩ }
  else b1

/-- The function `update_cur_next`: `cur` and `next` trade places and the new `next`
block is randomised (`r` is the value of `rand ()`). -/
def update_cur_next (r : Nat) (s : session) : session :=
  let s1 : session := { s with game := { s.game with cur := s.game.next, next := s.game.cur } }
  s1.set_block s1.game.next (random_block s1.game.width r (s1.blocks s1.game.next))

/-- A block of zeroed memory. -/
def zero_block : block :=
  { col_off := 0, row_off := 0, color := 0, type := 0,
    p0 := ⟨0, 0⟩, p1 := ⟨0, 0⟩, p2 := ⟨0, 0⟩, p3 := ⟨0, 0⟩ }

/-- The function `blocks_init`: a zeroed game with `width = 10`, `height = width*2 + 2`,
`diff = DIFF_NORMAL`, `level = 1`, an empty board of `BLOCKS_ROWS` rows, three randomised
blocks (`t0 t1 t2` are the values of `rand ()` for the shapes, `c0 c1 c2` those for the
colours), `cur = &blocks[0]`, `next = &blocks[1]`, `save = NULL`. -/
def blocks_init (t0 t1 t2 c0 c1 c2 : Nat) : session :=
  { game :=
      { width := 10, height := 10 * 2 + 2, diff := DIFF_NORMAL, level := 1,
        lines_destroyed := 0, spaces := List.replicate BLOCKS_ROWS 0, score := 0,
        colors := List.replicate BLOCKS_ROWS (List.replicate BLOCKS_COLUMNS 0),
        pause := false, lose := false, quit := false,
        cur := 0, next := 1, save := none },
    blocks0 := { random_block 10 t0 zero_block with color := c0 % 256 },
    blocks1 := { random_block 10 t1 zero_block with color := c1 % 256 },
    blocks2 := { random_block 10 t2 zero_block with color := c2 % 256 } }

/-- The keys `blocks_input` reacts to (after `toupper`); `other` is any other key. -/
inductive key where
  | A
  | D
  | S
  | W
  | Q
  | E
  | SPACE
  | P
  | F3
  | other
deriving DecidableEq, Repr

/-- The hold swap, `case ' '` of `blocks_input`:
`if (save == NULL) save = &blocks[2]; tmp = save; save = next; next = tmp;`. -/
def hold_swap (g : block_game) : block_game :=
  let tmp : Fin 3 := match g.save with
    | none => 2
    | some i => i
  { g with save := some g.next, next := tmp }

/-- One turn of the loop of `blocks_input` for the key `k`: the `switch` on the key.
`fuel` bounds the hard-drop loop of `W`; `none` when it is used up. -/
def blocks_input (fuel : Nat) (k : key) (s : session) : Option session :=
  match k with
  | key.A => some (s.set_block s.game.cur
      (translate_block s.game (s.blocks s.game.cur) block_cmd.MOVE_LEFT).2)
  | key.D => some (s.set_block s.game.cur
      (translate_block s.game (s.blocks s.game.cur) block_cmd.MOVE_RIGHT).2)
  | key.S => some (s.set_block s.game.cur (drop_block s.game (s.blocks s.game.cur)).2)
  | key.W => (hard_drop fuel s.game (s.blocks s.game.cur)).map (s.set_block s.game.cur)
  | key.Q => some (s.set_block s.game.cur
      (rotate_block s.game (s.blocks s.game.cur) block_cmd.MOVE_COUNTER_CLOCKWISE).2)
  | key.E => some (s.set_block s.game.cur
      (rotate_block s.game (s.blocks s.game.cur) block_cmd.MOVE_CLOCKWISE).2)
  | key.SPACE => some { s with game := hold_swap s.game }
  | key.P => some { s with game := { s.game with pause := !s.game.pause } }
  | key.F3 => some { s with game := { s.game with pause := false, quit := true } }
  | key.other => some s

/-- The critical section of the loop of `blocks_main`, with `r` the value `rand ()`
returns if a block is spawned: the current block drops one row or, if `drop_block` returns
`0`, it is written to the board, lines are destroyed and the next block becomes current.
`fuel` bounds the row loop of `destroy_lines`. -/
def lock_or_drop (fuel : Nat) (r : Nat) (s : session) : Option session :=
  if (drop_block s.game (s.blocks s.game.cur)).1 = 0 then
    match destroy_lines fuel (write_block s.game (s.blocks s.game.cur)) with
    | none => none
    | some (_, g) => some (update_cur_next r { s with game := g })
  else some (s.set_block s.game.cur (drop_block s.game (s.blocks s.game.cur)).2)

/-- One turn of the loop of `blocks_main` after the sleep: nothing happens while paused,
and nothing once the game is lost or quit (the loop is left); otherwise the critical
section runs. -/
def blocks_main_tick (fuel : Nat) (r : Nat) (s : session) : Option session :=
  if s.game.pause then some s
  else if s.game.lose || s.game.quit then some s
  else lock_or_drop fuel r s

/-- One atomic step of the session: a key handled by `blocks_input`, or a clock tick of
`blocks_main`.  The two threads run their steps under the mutex, in any order.  The tick
tests `pause`, `lose` and `quit` before it takes the lock, so a key may set `pause` or
`quit` in between: `raced_tick` is the critical section run in that case (only the clock
thread ever sets `lose`). -/
inductive step : session → session → Prop where
  | input (fuel : Nat) (k : key) (s s' : session) :
      blocks_input fuel k s = some s' → step s s'
  | tick (fuel r : Nat) (s s' : session) :
      blocks_main_tick fuel r s = some s' → step s s'
  | raced_tick (fuel r : Nat) (s s' : session) :
      s.game.lose = false → lock_or_drop fuel r s = some s' → step s s'

/-- The sessions reachable from `blocks_init` (any `rand ()` values) by steps. -/
inductive reachable : session → Prop where
  | init (t0 t1 t2 c0 c1 c2 : Nat) : reachable (blocks_init t0 t1 t2 c0 c1 c2)
  | next (s s' : session) : reachable s → step s s' → reachable s'

/-! ## Predicates used to state the properties -/

/-- A row bit-field is full for a board of width `w`: the bit of every column `c < w` is
set.  This is the condition under which the column scan of `destroy_lines` runs to
`j = width` (`scan_row_full` below). -/
def row_full (w row : Nat) : Bool :=
  (List.range w).all (fun c => decide (row &&& (1 <<< c) ≠ 0))

/-- The number of full rows with index in `[lo, hi)`. -/
def full_rows_in (w : Nat) (s : List Nat) (lo hi : Nat) : Nat :=
  ((List.range hi).filter (fun i => decide (lo ≤ i) && row_full w (s.getD i 0))).length

/-- The block sits on the board: each of its four cells, pivot + offset in exact integer
arithmetic, is inside `[0,width) x [0,height)` and unoccupied. -/
def on_board (g : block_game) (b : block) : Prop :=
  ∀ q ∈ b.p,
    0 ≤ (b.col_off : Int) + q.x ∧ (b.col_off : Int) + q.x < g.width ∧
    0 ≤ (b.row_off : Int) + q.y ∧ (b.row_off : Int) + q.y < g.height ∧
    blocks_at_yx g ((b.row_off : Int) + q.y) ((b.col_off : Int) + q.x) = 0

instance (g : block_game) (b : block) : Decidable (on_board g b) := by
  unfold on_board; infer_instance

/-- No cell of the two hidden rows is occupied (what the first loop nest of
`destroy_lines` tests). -/
def hidden_free (g : block_game) : Prop :=
  ∀ i j : Nat, i < 2 → j < g.width → blocks_at_yx g i j = 0

/-- Every offset of the block is within `[-2, 2]` on both axes. -/
def small_offsets (b : block) : Prop :=
  ∀ q ∈ b.p, -2 ≤ q.x ∧ q.x ≤ 2 ∧ -2 ≤ q.y ∧ q.y ≤ 2

/-- The pivot `(0, 0)` is one of the four offsets of the block. -/
def has_pivot (b : block) : Prop := (⟨0, 0⟩ : pieces) ∈ b.p

/-- The block has the position and offsets `random_block` gives to one of the seven
shapes on a board of width 10. -/
def spawned (b : block) : Prop :=
  ∃ t : Nat, t < 7 ∧
    b.col_off = (random_block 10 t zero_block).col_off ∧
    b.row_off = (random_block 10 t zero_block).row_off ∧
    b.p = (random_block 10 t zero_block).p

/-- The invariant of a session that is not lost: the board is 10x22 with 22 stored rows,
`cur`, `next` and `save` point to different blocks (`blocks[2]` is unused while
`save == NULL`), every block but the current one is freshly spawned, the hidden rows are
free, and the current block has small offsets around its pivot and sits on the board. -/
def good (s : session) : Prop :=
  s.game.width = 10 ∧ s.game.height = 22 ∧ s.game.spaces.length = 22 ∧
  s.game.cur ≠ s.game.next ∧
  (match s.game.save with
    | none => s.game.cur ≠ 2 ∧ s.game.next ≠ 2
    | some i => i ≠ s.game.cur ∧ i ≠ s.game.next) ∧
  (∀ i, i ≠ s.game.cur → spawned (s.blocks i)) ∧
  hidden_free s.game ∧
  small_offsets (s.blocks s.game.cur) ∧
  has_pivot (s.blocks s.game.cur) ∧
  on_board s.game (s.blocks s.game.cur)

/-- The block has small offsets around its pivot and sits on the board. -/
def piece_ok (g : block_game) (b : block) : Prop :=
  small_offsets b ∧ has_pivot b ∧ on_board g b

/-! ## Concrete inputs -/

/-- A 10x22 board whose bottom row lacks columns 4 and 5 only. -/
def demo_game : block_game :=
  { width := 10, height := 22, diff := 1, level := 1, lines_destroyed := 0,
    spaces := List.replicate 21 0 ++ [975], score := 0,
    colors := List.replicate 22 (List.replicate 10 0),
    pause := false, lose := false, quit := false, cur := 0, next := 1, save := none }

/-- A square resting on the bottom row over columns 4 and 5. -/
def demo_square : block :=
  { col_off := 5, row_off := 21, color := 3, type := 0,
    p0 := ⟨-1, -1⟩, p1 := ⟨0, -1⟩, p2 := ⟨-1, 0⟩, p3 := ⟨0, 0⟩ }

/-- A 10x22 board filled up to row 3, whose row 2 lacks columns 4 and 5 only. -/
def demo_top_game : block_game :=
  { width := 10, height := 22, diff := 1, level := 1, lines_destroyed := 0,
    spaces := [0, 0, 975] ++ List.replicate 19 1022, score := 0,
    colors := List.replicate 22 (List.replicate 10 0),
    pause := false, lose := false, quit := false, cur := 0, next := 1, save := none }

/-- A square over columns 4 and 5 of rows 1 and 2, resting on row 3. -/
def demo_top_square : block :=
  { col_off := 5, row_off := 2, color := 3, type := 0,
    p0 := ⟨-1, -1⟩, p1 := ⟨0, -1⟩, p2 := ⟨-1, 0⟩, p3 := ⟨0, 0⟩ }

/-- A 10x22 board with a full bottom row, level 1 and the line counter at its
`uint16_t` maximum. -/
def demo_counter_game : block_game :=
  { width := 10, height := 22, diff := 1, level := 1, lines_destroyed := 65535,
    spaces := List.replicate 21 0 ++ [1023], score := 0,
    colors := List.replicate 22 (List.replicate 10 0),
    pause := false, lose := false, quit := false, cur := 0, next := 1, save := none }

/-- A 10x22 board with a full bottom row, level 1, tier 1 and the score at its
`uint32_t` maximum. -/
def demo_score_game : block_game :=
  { width := 10, height := 22, diff := 1, level := 1, lines_destroyed := 0,
    spaces := List.replicate 21 0 ++ [1023], score := 4294967295,
    colors := List.replicate 22 (List.replicate 10 0),
    pause := false, lose := false, quit := false, cur := 0, next := 1, save := none }

/-- A 10x22 board with a full bottom row, level 1 and six lines since the last
level-up: one more line reaches `2*1 + 5`. -/
def demo_levelup_game : block_game :=
  { width := 10, height := 22, diff := 1, level := 1, lines_destroyed := 6,
    spaces := List.replicate 21 0 ++ [1023], score := 0,
    colors := List.replicate 22 (List.replicate 10 0),
    pause := false, lose := false, quit := false, cur := 0, next := 1, save := none }

/-- A 10x22 board whose rows 1 and 2 are full and whose other rows are empty. -/
def demo_hidden_full_game : block_game :=
  { width := 10, height := 22, diff := 1, level := 1, lines_destroyed := 0,
    spaces := [0, 1023, 1023] ++ List.replicate 19 0, score := 0,
    colors := List.replicate 22 (List.replicate 10 0),
    pause := false, lose := false, quit := false, cur := 0, next := 1, save := none }

/-- The board `demo_hidden_full_game` with row 1 emptied. -/
def demo_hidden_empty_game : block_game :=
  { demo_hidden_full_game with spaces := [0, 0, 1023] ++ List.replicate 19 0 }

/-- The session after `blocks_init` (shapes square, line, T) and a hard drop. -/
def demo_dropped : session :=
  (blocks_input 22 key.W (blocks_init 0 1 2 3 4 5)).getD (blocks_init 0 1 2 3 4 5)

/-- The session `demo_dropped` after one clock tick: the square is locked on the bottom
rows and the line has become the current block. -/
def demo_locked : session :=
  (blocks_main_tick 45 6 demo_dropped).getD demo_dropped

/-- A 10x22 board whose rows 0, 1 and 2 are full and whose other rows are empty. -/
def demo_stuck_game : block_game :=
  { width := 10, height := 22, diff := 1, level := 1, lines_destroyed := 0,
    spaces := [1023, 1023, 1023] ++ List.replicate 19 0, score := 0,
    colors := List.replicate 22 (List.replicate 10 0),
    pause := false, lose := false, quit := false, cur := 0, next := 1, save := none }

/-- The session after `blocks_init` with the line as current block (shapes line, square,
T) and two soft drops. -/
def demo_line_session : session :=
  ((blocks_input 0 key.S (blocks_init 1 0 2 3 4 5)).bind (blocks_input 0 key.S)).getD
    (blocks_init 1 0 2 3 4 5)

/-! ## Arithmetic helpers -/

theorem wrap8_add_wrap8 (a b : Int) : wrap8 (a + wrap8 b) = wrap8 (b + a) := by
  unfold wrap8; omega

theorem wrap8_range (a : Int) : -128 ≤ wrap8 a ∧ wrap8 a ≤ 127 := by
  unfold wrap8; omega

theorem blocked_at_false {g : block_game} {x y : Int} (h : blocked_at g x y = false) :
    0 ≤ x ∧ x < g.width ∧ 0 ≤ y ∧ y < g.height ∧ blocks_at_yx g y x = 0 := by
  simp only [blocked_at, Bool.or_eq_false_iff, decide_eq_false_iff_not, not_lt, not_le,
    ne_eq, not_not, ge_iff_le] at h
  omega

theorem any_false_forall {α : Type} {l : List α} {f : α → Bool} (h : ¬ l.any f = true) :
    ∀ q ∈ l, f q = false := by
  intro q hq
  by_contra hc
  exact h (List.any_eq_true.mpr ⟨q, hq, by simpa using hc⟩)

theorem mem_rotate_pieces {m : Int} {b : block} {q : pieces}
    (hq : q ∈ (rotate_pieces m b).p) : ∃ q0 ∈ b.p, q = rotate_piece m q0 := by
  simp only [block.p, rotate_pieces, List.mem_cons, List.mem_singleton, List.not_mem_nil,
    or_false] at hq ⊢
  rcases hq with h | h | h | h
  · exact ⟨b.p0, Or.inl rfl, h⟩
  · exact ⟨b.p1, Or.inr (Or.inl rfl), h⟩
  · exact ⟨b.p2, Or.inr (Or.inr (Or.inl rfl)), h⟩
  · exact ⟨b.p3, Or.inr (Or.inr (Or.inr rfl)), h⟩

/-! ## Rotation -/

theorem rotate_block_square {g : block_game} {b : block} {cmd : block_cmd}
    (h : b.type = SQUARE_BLOCK) : rotate_block g b cmd = (1, b) := by
  unfold rotate_block; rw [if_pos h]

theorem rotate_block_reject {g : block_game} {b : block} {cmd : block_cmd}
    (h : ¬ b.type = SQUARE_BLOCK)
    (hany : b.p.any (fun q =>
      blocked_at g (wrap8 (q.y * (-(rotate_mod cmd)) + b.col_off))
        (wrap8 (q.x * (rotate_mod cmd) + b.row_off))) = true) :
    rotate_block g b cmd = (-1, b) := by
  unfold rotate_block; rw [if_neg h, if_pos hany]

theorem rotate_block_commit {g : block_game} {b : block} {cmd : block_cmd}
    (h : ¬ b.type = SQUARE_BLOCK)
    (hany : ¬ b.p.any (fun q =>
      blocked_at g (wrap8 (q.y * (-(rotate_mod cmd)) + b.col_off))
        (wrap8 (q.x * (rotate_mod cmd) + b.row_off))) = true) :
    rotate_block g b cmd = (1, rotate_pieces (rotate_mod cmd) b) := by
  unfold rotate_block; rw [if_neg h, if_neg hany]

/-- C1. For every board `g`, every block `b` (any shape tag, offsets and pivot) and every
command (`MOVE_COUNTER_CLOCKWISE` rotates by `mod = -1`, anything else by `mod = 1`),
`rotate_block` is all-or-nothing.  Either it returns `1` and each of the four absolute
cells of the resulting block (computed as `write_block` computes them, the `int8_t` of
pivot + offset) lies in `[0,width) x [0,height)` on an unoccupied cell of `g` (and when
the pivot is within the `int8_t` range, `col_off, row_off <= 127`, so do the exact sums
pivot + offset: `on_board`), or the block is returned exactly as it was.  The result is
`1` or `-1`, `-1` always leaves the block as it was, and the returned block is either
the argument itself or the argument with all four offsets rewritten by the same quarter
turn (never only some of them); the pivot, colour and shape tag are never touched.  The
board is an argument that `rotate_block` only reads: the function returns no board. -/
theorem rotate_block_all_or_nothing (g : block_game) (b : block) (cmd : block_cmd) :
    (((rotate_block g b cmd).1 = 1 ∧
        (∀ q ∈ (rotate_block g b cmd).2.p,
          0 ≤ cell_x (rotate_block g b cmd).2 q ∧
          cell_x (rotate_block g b cmd).2 q < g.width ∧
          0 ≤ cell_y (rotate_block g b cmd).2 q ∧
          cell_y (rotate_block g b cmd).2 q < g.height ∧
          blocks_at_yx g (cell_y (rotate_block g b cmd).2 q)
            (cell_x (rotate_block g b cmd).2 q) = 0) ∧
        (b.col_off ≤ 127 → b.row_off ≤ 127 → on_board g (rotate_block g b cmd).2))
      ∨ (rotate_block g b cmd).2 = b)
    ∧ ((rotate_block g b cmd).1 = 1 ∨ (rotate_block g b cmd).1 = -1)
    ∧ ((rotate_block g b cmd).1 = -1 → (rotate_block g b cmd).2 = b)
    ∧ ((rotate_block g b cmd).2 = b ∨
        (rotate_block g b cmd).2 = rotate_pieces (rotate_mod cmd) b)
    ∧ (rotate_block g b cmd).2.col_off = b.col_off
    ∧ (rotate_block g b cmd).2.row_off = b.row_off
    ∧ (rotate_block g b cmd).2.color = b.color
    ∧ (rotate_block g b cmd).2.type = b.type := by
  by_cases hsq : b.type = SQUARE_BLOCK
  · rw [rotate_block_square hsq]; simp
  · by_cases hany : b.p.any (fun q =>
        blocked_at g (wrap8 (q.y * (-(rotate_mod cmd)) + b.col_off))
          (wrap8 (q.x * (rotate_mod cmd) + b.row_off))) = true
    · rw [rotate_block_reject hsq hany]; simp
    · rw [rotate_block_commit hsq hany]
      have hcell : ∀ q0 ∈ b.p,
          cell_x (rotate_pieces (rotate_mod cmd) b) (rotate_piece (rotate_mod cmd) q0)
            = wrap8 (q0.y * (-(rotate_mod cmd)) + b.col_off) ∧
          cell_y (rotate_pieces (rotate_mod cmd) b) (rotate_piece (rotate_mod cmd) q0)
            = wrap8 (q0.x * (rotate_mod cmd) + b.row_off) := by
        intro q0 _
        constructor
        · simp only [cell_x, rotate_piece, rotate_pieces]
          exact wrap8_add_wrap8 _ _
        · simp only [cell_y, rotate_piece, rotate_pieces]
          exact wrap8_add_wrap8 _ _
      refine ⟨Or.inl ⟨rfl, ?_, ?_⟩, Or.inl rfl, fun h => absurd (show (1 : Int) = -1 from h)
        (by decide), Or.inr rfl, rfl, rfl, rfl, rfl⟩
      · intro q hq
        obtain ⟨q0, hq0, rfl⟩ := mem_rotate_pieces hq
        have hb := blocked_at_false (any_false_forall hany q0 hq0)
        simp only [(hcell q0 hq0).1, (hcell q0 hq0).2]
        exact hb
      · intro hc hr q hq
        obtain ⟨q0, hq0, rfl⟩ := mem_rotate_pieces hq
        have hb := blocked_at_false (any_false_forall hany q0 hq0)
        have ex : ((rotate_pieces (rotate_mod cmd) b).col_off : Int)
            + (rotate_piece (rotate_mod cmd) q0).x
            = wrap8 (q0.y * (-(rotate_mod cmd)) + b.col_off) := by
          simp only [rotate_piece, rotate_pieces]
          generalize q0.y * (-(rotate_mod cmd)) = v at hb ⊢
          revert hb; unfold wrap8; intro hb; omega
        have ey : ((rotate_pieces (rotate_mod cmd) b).row_off : Int)
            + (rotate_piece (rotate_mod cmd) q0).y
            = wrap8 (q0.x * (rotate_mod cmd) + b.row_off) := by
          simp only [rotate_piece, rotate_pieces]
          generalize q0.x * (rotate_mod cmd) = v at hb ⊢
          revert hb; unfold wrap8; intro hb; omega
        rw [ex, ey]
        exact hb

/-! ## Lists, rows and the row loop of `destroy_lines` -/

theorem getD_set (s : List Nat) (k m v : Nat) :
    (s.set k v).getD m 0 = if m = k ∧ k < s.length then v else s.getD m 0 := by
  simp only [List.getD_eq_getElem?_getD, List.getElem?_set]
  by_cases hk : k = m
  · subst hk
    by_cases hl : k < s.length
    · simp [hl]
    · simp [hl, List.getElem?_eq_none (Nat.le_of_not_lt hl)]
  · have : ¬ m = k := fun h => hk h.symm
    simp [hk, this]

theorem shift_down_length (k : Nat) : ∀ s : List Nat, (shift_down s k).length = s.length := by
  induction k with
  | zero => intro s; rfl
  | succ k ih => intro s; simp [shift_down, ih]

theorem shift_down_getD (k : Nat) : ∀ (s : List Nat), k < s.length → ∀ m,
    (shift_down s k).getD m 0 = if 1 ≤ m ∧ m ≤ k then s.getD (m - 1) 0 else s.getD m 0 := by
  induction k with
  | zero =>
    intro s _ m
    have h : ¬ (1 ≤ m ∧ m ≤ 0) := by omega
    rw [shift_down, if_neg h]
  | succ k ih =>
    intro s hk m
    have hk' : k < (s.set (k + 1) (s.getD k 0)).length := by simp; omega
    rw [shift_down, ih _ hk' m]
    by_cases h1 : 1 ≤ m ∧ m ≤ k
    · have h2 : 1 ≤ m ∧ m ≤ k + 1 := ⟨h1.1, by omega⟩
      rw [if_pos h1, if_pos h2, getD_set]
      have : ¬ (m - 1 = k + 1 ∧ k + 1 < s.length) := by omega
      rw [if_neg this]
    · rw [if_neg h1, getD_set]
      by_cases h3 : m = k + 1
      · subst h3
        simp [hk]
      · have h4 : ¬ (m = k + 1 ∧ k + 1 < s.length) := by omega
        have h5 : ¬ (1 ≤ m ∧ m ≤ k + 1) := by omega
        rw [if_neg h4, if_neg h5]

theorem clear_row_getD (s : List Nat) (i : Nat) (hi : i < s.length) (h1 : 1 ≤ i) (m : Nat) :
    (shift_down (s.set i 0) i).getD m 0 =
      if 1 ≤ m ∧ m ≤ i then s.getD (m - 1) 0 else s.getD m 0 := by
  rw [shift_down_getD i _ (by simpa using hi) m]
  by_cases h : 1 ≤ m ∧ m ≤ i
  · rw [if_pos h, if_pos h, getD_set]
    have : ¬ (m - 1 = i ∧ i < s.length) := by omega
    rw [if_neg this]
  · rw [if_neg h, if_neg h, getD_set]
    have : ¬ (m = i ∧ i < s.length) := by omega
    rw [if_neg this]

theorem row_full_iff (w row : Nat) :
    row_full w row = true ↔ ∀ c, c < w → row &&& (1 <<< c) ≠ 0 := by
  simp [row_full]

theorem scan_row_spec (g : block_game) (i : Int) : ∀ (n j : Nat),
    scan_row g i n j ≤ j + n ∧
    (scan_row g i n j = j + n ↔ ∀ c, j ≤ c → c < j + n → blocks_at_yx g i c ≠ 0) := by
  intro n
  induction n with
  | zero => intro j; simp [scan_row]; intro c h1 h2; omega
  | succ n ih =>
    intro j
    rw [scan_row]
    by_cases h0 : blocks_at_yx g i j = 0
    · rw [if_pos h0]
      refine ⟨by omega, ⟨fun h => by omega, fun h => ?_⟩⟩
      exact absurd h0 (h j (le_refl _) (by omega))
    · rw [if_neg h0]
      obtain ⟨ih1, ih2⟩ := ih (j + 1)
      refine ⟨by omega, ?_⟩
      have e : j + 1 + n = j + (n + 1) := by omega
      rw [← e, ih2]
      constructor
      · intro h c hc1 hc2
        by_cases hcj : c = j
        · subst hcj; exact h0
        · exact h c (by omega) hc2
      · intro h c hc1 hc2
        exact h c (by omega) hc2

theorem scan_row_full (g : block_game) (i : Nat) :
    scan_row g (i : Int) g.width 0 = g.width ↔ row_full g.width (g.spaces.getD i 0) = true := by
  have h := (scan_row_spec g (i : Int) g.width 0).2
  simp only [Nat.zero_add] at h
  rw [h, row_full_iff]
  simp [blocks_at_yx]

theorem destroy_loop_exit (fuel : Nat) (g : block_game) (i : Int) (d : Nat) (h : i < 2) :
    destroy_loop (fuel + 1) g i d = some (g, d) := by
  rw [destroy_loop, if_neg (by omega)]

theorem destroy_loop_skip (fuel : Nat) (g : block_game) (i d : Nat) (h2 : 2 ≤ i)
    (hi : i ≤ 127) (hnf : row_full g.width (g.spaces.getD i 0) = false) :
    destroy_loop (fuel + 1) g (i : Int) d = destroy_loop fuel g ((i - 1 : Nat) : Int) d := by
  have hs : scan_row g (i : Int) g.width 0 ≠ g.width := by
    rw [Ne, scan_row_full, hnf]; simp
  have hw : wrap8 ((i : Int) - 1) = ((i - 1 : Nat) : Int) := by
    unfold wrap8; omega
  rw [destroy_loop, if_pos (by omega), if_pos hs, hw]

theorem destroy_loop_clear (fuel : Nat) (g : block_game) (i d : Nat) (h2 : 2 ≤ i)
    (hi : i ≤ 127) (hf : row_full g.width (g.spaces.getD i 0) = true) :
    destroy_loop (fuel + 1) g (i : Int) d =
      destroy_loop fuel { g with spaces := shift_down (g.spaces.set i 0) i } (i : Int)
        ((d + 1) % 256) := by
  have hs : ¬ scan_row g (i : Int) g.width 0 ≠ g.width := by
    rw [Ne, scan_row_full, hf]; simp
  have hw : wrap8 (wrap8 ((i : Int) + 1) - 1) = (i : Int) := by
    unfold wrap8; omega
  rw [destroy_loop, if_pos (by omega), if_neg hs, hw, Int.toNat_ofNat]

/-- Rows `r+1 .. r+n` without a full one are passed over. -/
theorem destroy_loop_pass (g : block_game) (r d fuel : Nat) : ∀ n : Nat,
    1 ≤ r → r + n ≤ 127 →
    (∀ k, r < k → k ≤ r + n → row_full g.width (g.spaces.getD k 0) = false) →
    destroy_loop (fuel + n) g ((r + n : Nat) : Int) d = destroy_loop fuel g (r : Int) d := by
  intro n
  induction n with
  | zero => intro _ _ _; rfl
  | succ n ih =>
    intro hr hn hrows
    have e : fuel + (n + 1) = (fuel + n) + 1 := by omega
    rw [e, destroy_loop_skip (fuel + n) g (r + (n + 1)) d (by omega) hn
      (hrows _ (by omega) (le_refl _))]
    have e2 : r + (n + 1) - 1 = r + n := by omega
    rw [e2]
    exact ih hr (by omega) (fun k h1 h2 => hrows k h1 (by omega))

theorem full_rows_in_succ (w : Nat) (s : List Nat) (lo n : Nat) :
    full_rows_in w s lo (n + 1) =
      full_rows_in w s lo n +
        (if lo ≤ n ∧ row_full w (s.getD n 0) = true then 1 else 0) := by
  unfold full_rows_in
  rw [List.range_succ, List.filter_append, List.length_append]
  by_cases h : lo ≤ n ∧ row_full w (s.getD n 0) = true
  · have hp : (decide (lo ≤ n) && row_full w (s.getD n 0)) = true := by
      rw [h.2, Bool.and_true]; exact decide_eq_true h.1
    rw [if_pos h]
    simp only [List.filter_cons, List.filter_nil, hp, if_true, List.length_cons, List.length_nil]
  · have hp : ¬ (decide (lo ≤ n) && row_full w (s.getD n 0)) = true := by
      intro hc
      rw [Bool.and_eq_true] at hc
      exact h ⟨of_decide_eq_true hc.1, hc.2⟩
    rw [if_neg h]
    have hp' : (decide (lo ≤ n) && row_full w (s.getD n 0)) = false := Bool.eq_false_iff.mpr hp
    simp only [List.filter_cons, List.filter_nil, hp', Bool.false_eq_true, if_false, List.length_nil]

theorem full_rows_in_shift (w : Nat) (s s2 : List Nat) : ∀ n : Nat,
    (∀ k, 1 ≤ k → k ≤ n → s2.getD k 0 = s.getD (k - 1) 0) →
    full_rows_in w s2 1 (n + 1) = full_rows_in w s 0 n := by
  intro n
  induction n with
  | zero => intro _; simp [full_rows_in, List.range_succ, List.filter]
  | succ n ih =>
    intro h
    rw [full_rows_in_succ w s2 1 (n + 1), full_rows_in_succ w s 0 n,
      ih (fun k h1 h2 => h k h1 (by omega)), h (n + 1) (by omega) (le_refl _)]
    have e : n + 1 - 1 = n := by omega
    rw [e]
    by_cases hr : row_full w (s.getD n 0) = true
    · have a1 : 1 ≤ n + 1 ∧ row_full w (s.getD n 0) = true := ⟨by omega, hr⟩
      have a2 : 0 ≤ n ∧ row_full w (s.getD n 0) = true := ⟨by omega, hr⟩
      rw [if_pos a1, if_pos a2]
    · have a1 : ¬ (1 ≤ n + 1 ∧ row_full w (s.getD n 0) = true) := fun hc => hr hc.2
      have a2 : ¬ (0 ≤ n ∧ row_full w (s.getD n 0) = true) := fun hc => hr hc.2
      rw [if_neg a1, if_neg a2]

theorem full_rows_in_lower (w : Nat) (s : List Nat) (lo : Nat)
    (h : row_full w (s.getD lo 0) = false) : ∀ n : Nat,
    full_rows_in w s lo n = full_rows_in w s (lo + 1) n := by
  intro n
  induction n with
  | zero => simp [full_rows_in]
  | succ n ih =>
    rw [full_rows_in_succ, full_rows_in_succ, ih]
    by_cases hn : n = lo
    · subst hn
      have hn1 : ¬ (n ≤ n ∧ row_full w (s.getD n 0) = true) :=
        fun hc => by rw [h] at hc; exact Bool.noConfusion hc.2
      have hn2 : ¬ (n + 1 ≤ n ∧ row_full w (s.getD n 0) = true) :=
        fun hc => absurd hc.1 (by omega)
      rw [if_neg hn1, if_neg hn2]
    · by_cases hr : row_full w (s.getD n 0) = true
      · by_cases h1 : lo ≤ n
        · have a1 : lo ≤ n ∧ row_full w (s.getD n 0) = true := ⟨h1, hr⟩
          have a2 : lo + 1 ≤ n ∧ row_full w (s.getD n 0) = true := ⟨by omega, hr⟩
          rw [if_pos a1, if_pos a2]
        · have a1 : ¬ (lo ≤ n ∧ row_full w (s.getD n 0) = true) := fun hc => h1 hc.1
          have a2 : ¬ (lo + 1 ≤ n ∧ row_full w (s.getD n 0) = true) :=
            fun hc => h1 (by omega)
          rw [if_neg a1, if_neg a2]
      · have a1 : ¬ (lo ≤ n ∧ row_full w (s.getD n 0) = true) := fun hc => hr hc.2
        have a2 : ¬ (lo + 1 ≤ n ∧ row_full w (s.getD n 0) = true) := fun hc => hr hc.2
        rw [if_neg a1, if_neg a2]

theorem full_rows_in_le (w : Nat) (s : List Nat) (lo n : Nat) :
    full_rows_in w s lo n ≤ n := by
  induction n with
  | zero => simp [full_rows_in]
  | succ n ih => rw [full_rows_in_succ]; split <;> omega

/-- The row loop from index `i >= 1` on a board whose row 0 is not full: it finishes
within `i + (number of full rows in 1..i) + 1` iterations, only `spaces` changes, row 0
is untouched, row 1 ends as the old row 1 or row 0, rows past `i` are untouched, and the
number `k` of destroyed rows plus one if the final row 1 is full is the number of full
rows in `1..i`. -/
theorem destroy_loop_count : ∀ (fuel : Nat) (g : block_game) (i d : Nat),
    1 ≤ i → i ≤ 127 → i < g.spaces.length → d < 256 →
    row_full g.width (g.spaces.getD 0 0) = false →
    i + full_rows_in g.width g.spaces 1 (i + 1) < fuel →
    ∃ (s' : List Nat) (k : Nat),
      destroy_loop fuel g (i : Int) d = some ({ g with spaces := s' }, (d + k) % 256) ∧
      s'.length = g.spaces.length ∧
      s'.getD 0 0 = g.spaces.getD 0 0 ∧
      (s'.getD 1 0 = g.spaces.getD 1 0 ∨ s'.getD 1 0 = g.spaces.getD 0 0) ∧
      (∀ m, i < m → s'.getD m 0 = g.spaces.getD m 0) ∧
      k + (if row_full g.width (s'.getD 1 0) = true then 1 else 0)
        = full_rows_in g.width g.spaces 1 (i + 1) ∧
      (∀ m, 2 ≤ m → m ≤ i → row_full g.width (s'.getD m 0) = false) := by
  intro fuel
  induction fuel with
  | zero => intro g i d _ _ _ _ _ h; omega
  | succ fuel ih =>
    intro g i d h1 h127 hlen hd h0 hfuel
    by_cases hi1 : i = 1
    · subst hi1
      refine ⟨g.spaces, 0, ?_, rfl, rfl, Or.inl rfl, fun m _ => rfl, ?_, ?_⟩
      · rw [show ((1 : Nat) : Int) = 1 from rfl, destroy_loop_exit fuel g 1 d (by omega)]
        rw [Nat.add_zero, Nat.mod_eq_of_lt hd]
      · rw [full_rows_in_succ, full_rows_in_succ]
        have hz : full_rows_in g.width g.spaces 1 0 = 0 := rfl
        have hn : ¬ (1 ≤ 0 ∧ row_full g.width (g.spaces.getD 0 0) = true) :=
          fun hc => absurd hc.1 (by omega)
        rw [hz, if_neg hn]
        by_cases hr : row_full g.width (g.spaces.getD 1 0) = true
        · have hr' : 1 ≤ 1 ∧ row_full g.width (g.spaces.getD 1 0) = true := ⟨le_refl _, hr⟩
          rw [if_pos hr, if_pos hr']
        · have hr' : ¬ (1 ≤ 1 ∧ row_full g.width (g.spaces.getD 1 0) = true) :=
            fun hc => hr hc.2
          rw [if_neg hr, if_neg hr']
      · intro m hm1 hm2; omega
    · have h2 : 2 ≤ i := by omega
      rcases Bool.eq_false_or_eq_true (row_full g.width (g.spaces.getD i 0)) with hf | hf
      · -- full row: clear and stay
        have hsh := clear_row_getD g.spaces i hlen h1
        have hcnt : full_rows_in g.width (shift_down (g.spaces.set i 0) i) 1 (i + 1) + 1
            = full_rows_in g.width g.spaces 1 (i + 1) := by
          rw [full_rows_in_shift g.width g.spaces _ i
            (fun k hk1 hk2 => by rw [hsh k, if_pos ⟨hk1, hk2⟩]),
            full_rows_in_lower g.width g.spaces 0 h0 i,
            full_rows_in_succ g.width g.spaces 1 i,
            if_pos (show 1 ≤ i ∧ row_full g.width (g.spaces.getD i 0) = true from ⟨h1, hf⟩)]
        obtain ⟨s', k, hrun, hl, hz, ho, hm, hk, hnf⟩ :=
          ih { g with spaces := shift_down (g.spaces.set i 0) i } i ((d + 1) % 256)
            h1 h127 (by simp only [shift_down_length, List.length_set]; exact hlen)
            (Nat.mod_lt _ (by omega))
            (by simp only; rw [hsh 0, if_neg (by omega)]; exact h0)
            (by simp only; omega)
        refine ⟨s', k + 1, ?_, ?_, ?_, ?_, ?_, ?_, ?_⟩
        · rw [destroy_loop_clear fuel g i d h2 h127 hf, hrun]
          have : ((d + 1) % 256 + k) % 256 = (d + (k + 1)) % 256 := by omega
          rw [this]
        · simp only [shift_down_length, List.length_set] at hl; exact hl
        · simp only at hz; rw [hz, hsh 0, if_neg (by omega)]
        · right
          have e1 := hsh 1
          have e0 := hsh 0
          rw [if_pos (show (1 ≤ 1 ∧ 1 ≤ i) from ⟨le_refl _, h1⟩)] at e1
          rw [if_neg (show ¬ (1 ≤ 0 ∧ 0 ≤ i) from by omega)] at e0
          simp only at ho
          rcases ho with ho | ho
          · rw [ho, e1]
          · rw [ho, e0]
        · intro m hmi
          have := hm m hmi
          simp only at this
          rw [this, hsh m, if_neg (by omega)]
        · simp only at hk
          omega
        · exact hnf
      · -- row with a gap: move up
        have hcnt : full_rows_in g.width g.spaces 1 (i + 1)
            = full_rows_in g.width g.spaces 1 (i - 1 + 1) := by
          have : i - 1 + 1 = i := by omega
          rw [full_rows_in_succ g.width g.spaces 1 i, this,
            if_neg (show ¬ (1 ≤ i ∧ row_full g.width (g.spaces.getD i 0) = true) from
              fun hc => by rw [hf] at hc; exact Bool.noConfusion hc.2), Nat.add_zero]
        obtain ⟨s', k, hrun, hl, hz, ho, hm, hk, hnf⟩ :=
          ih g (i - 1) d (by omega) (by omega) (by omega) hd h0 (by omega)
        refine ⟨s', k, ?_, hl, hz, ho, fun m hmi => hm m (by omega), ?_, ?_⟩
        · rw [destroy_loop_skip fuel g i d h2 h127 hf, hrun]
        · rw [hk, hcnt]
        · intro m hm1 hm2
          by_cases hmi : m = i
          · subst hmi
            rw [hm m (by omega)]; exact hf
          · exact hnf m hm1 (by omega)

theorem flag_loss_spaces (g : block_game) : (flag_loss g).spaces = g.spaces := by
  unfold flag_loss; split <;> rfl

theorem flag_loss_width (g : block_game) : (flag_loss g).width = g.width := by
  unfold flag_loss; split <;> rfl

theorem tally_spaces (g : block_game) (d : Nat) : (tally g d).spaces = g.spaces := by
  unfold tally; simp only; split <;> rfl

theorem write_block_width (g : block_game) (b : block) : (write_block g b).width = g.width := by
  unfold write_block; split
  · rfl
  · simp [block.p, List.foldl]

theorem write_block_height (g : block_game) (b : block) :
    (write_block g b).height = g.height := by
  unfold write_block; split
  · rfl
  · simp [block.p, List.foldl]

theorem write_block_length (g : block_game) (b : block) :
    (write_block g b).spaces.length = g.spaces.length := by
  unfold write_block; split
  · rfl
  · simp [block.p, List.foldl]

theorem write_block_lose (g : block_game) (b : block) : (write_block g b).lose = g.lose := by
  unfold write_block; split
  · rfl
  · simp [block.p, List.foldl]

/-- The row loop on a board whose only full row among `1 .. r+n` is row `r`: one row is
destroyed, and the board is the old one with row `r` zeroed and rows `0 .. r-1` shifted
down by one. -/
theorem destroy_loop_single (g : block_game) (r n f d : Nat)
    (hr2 : 2 ≤ r) (h127 : r + n ≤ 127) (hlen : r < g.spaces.length)
    (hfull : row_full g.width (g.spaces.getD r 0) = true)
    (hother : ∀ k, 1 ≤ k → k ≤ r + n → k ≠ r → row_full g.width (g.spaces.getD k 0) = false) :
    destroy_loop (f + 1 + (r - 1) + 1 + n) g ((r + n : Nat) : Int) d
      = some ({ g with spaces := shift_down (g.spaces.set r 0) r }, (d + 1) % 256) := by
  rw [destroy_loop_pass g r d (f + 1 + (r - 1) + 1) n (by omega) h127
    (fun k h1 h2 => hother k (by omega) h2 (by omega))]
  rw [destroy_loop_clear (f + 1 + (r - 1)) g r d hr2 (by omega) hfull]
  have hsh := clear_row_getD g.spaces r hlen (by omega)
  have e : ((r : Nat) : Int) = ((1 + (r - 1) : Nat) : Int) := by
    congr 1; omega
  rw [e, destroy_loop_pass _ 1 ((d + 1) % 256) (f + 1) (r - 1) (le_refl _) (by omega)
    (fun k h1 h2 => by
      simp only
      rw [hsh k, if_pos ⟨by omega, by omega⟩]
      exact hother (k - 1) (by omega) (by omega) (by omega))]
  exact destroy_loop_exit f _ _ _ (by decide)

/-! ## C2: one completed row -/

/-- C2. For every board `g` (with `height <= 127` rows, all of them stored in `spaces`)
and every block `b`: if after `write_block g b` row `r`, `2 <= r < height`, is full and
no other row of the board is, then `destroy_lines` (given at least `height` iterations)
returns `1`, and afterwards every row `i` with `1 <= i <= r` holds what row `i-1` held
just before the call, every row below `r` (index `> r`) is unchanged; row 0 keeps its
contents and the number of rows is unchanged. -/
theorem destroy_lines_single_row (g : block_game) (b : block) (r fuel : Nat)
    (hlen : g.height ≤ g.spaces.length) (h127 : g.height ≤ 127)
    (hr2 : 2 ≤ r) (hrh : r < g.height)
    (hfull : row_full g.width ((write_block g b).spaces.getD r 0) = true)
    (hother : ∀ i, i < g.height → i ≠ r →
      row_full g.width ((write_block g b).spaces.getD i 0) = false)
    (hfuel : g.height ≤ fuel) :
    ∃ g', destroy_lines fuel (write_block g b) = some (1, g') ∧
      (∀ i, 1 ≤ i → i ≤ r →
        g'.spaces.getD i 0 = (write_block g b).spaces.getD (i - 1) 0) ∧
      (∀ i, r < i → g'.spaces.getD i 0 = (write_block g b).spaces.getD i 0) ∧
      g'.spaces.getD 0 0 = (write_block g b).spaces.getD 0 0 ∧
      g'.spaces.length = (write_block g b).spaces.length := by
  have hw := write_block_width g b
  have hh := write_block_height g b
  have hl := write_block_length g b
  generalize write_block g b = g1 at *
  have hi0 : wrap8 ((g1.height : Int) - 1) = ((r + (g.height - 1 - r) : Nat) : Int) := by
    rw [hh]; unfold wrap8; omega
  have hf : fuel = (fuel - g.height) + 1 + (r - 1) + 1 + (g.height - 1 - r) := by omega
  have hrun := destroy_loop_single (flag_loss g1) r (g.height - 1 - r) (fuel - g.height) 0
    hr2 (by omega) (by rw [flag_loss_spaces]; omega)
    (by rw [flag_loss_spaces, flag_loss_width, hw]; exact hfull)
    (fun k h1 h2 h3 => by
      rw [flag_loss_spaces, flag_loss_width, hw]; exact hother k (by omega) h3)
  rw [← hf, ← hi0] at hrun
  have hsh := clear_row_getD g1.spaces r (by omega) (by omega)
  refine ⟨tally { flag_loss g1 with
      spaces := shift_down ((flag_loss g1).spaces.set r 0) r } 1, ?_, ?_, ?_, ?_, ?_⟩
  · unfold destroy_lines; rw [hrun]
  · intro i h1 h2
    rw [tally_spaces]; simp only
    rw [flag_loss_spaces, hsh i, if_pos ⟨h1, h2⟩]
  · intro i h1
    rw [tally_spaces]; simp only
    rw [flag_loss_spaces, hsh i, if_neg (by omega)]
  · rw [tally_spaces]; simp only
    rw [flag_loss_spaces, hsh 0, if_neg (by omega)]
  · rw [tally_spaces]; simp only
    rw [flag_loss_spaces, shift_down_length, List.length_set]

theorem destroy_lines_single_row_witness :
    ∃ g', destroy_lines 22 (write_block demo_game demo_square) = some (1, g') ∧
      (∀ i, 1 ≤ i → i ≤ 21 →
        g'.spaces.getD i 0 = (write_block demo_game demo_square).spaces.getD (i - 1) 0) ∧
      (∀ i, 21 < i →
        g'.spaces.getD i 0 = (write_block demo_game demo_square).spaces.getD i 0) ∧
      g'.spaces.getD 0 0 = (write_block demo_game demo_square).spaces.getD 0 0 ∧
      g'.spaces.length = (write_block demo_game demo_square).spaces.length :=
  destroy_lines_single_row demo_game demo_square 21 22 (by decide) (by decide) (by decide)
    (by decide) (by decide) (by decide) (by decide)

/-! ## Frame and termination of the row loop -/

theorem scan_row_congr (g ga : block_game) (hs : ga.spaces = g.spaces) (i : Int) :
    ∀ n j, scan_row ga i n j = scan_row g i n j := by
  intro n
  induction n with
  | zero => intro j; rfl
  | succ n ih =>
    intro j
    have hb : blocks_at_yx ga i j = blocks_at_yx g i j := by
      unfold blocks_at_yx; rw [hs]
    rw [scan_row, scan_row, hb, ih]

/-- The row loop reads only `spaces` and `width` and writes only `spaces`: run on a game
`ga` with the same rows and width as `g`, it does what it does on `g`, every other field
of `ga` being carried along. -/
theorem destroy_loop_indep : ∀ (fuel : Nat) (g ga : block_game) (i : Int) (d : Nat),
    ga.spaces = g.spaces → ga.width = g.width →
    destroy_loop fuel ga i d =
      (destroy_loop fuel g i d).map (fun r => ({ ga with spaces := r.1.spaces }, r.2)) := by
  intro fuel
  induction fuel with
  | zero => intro g ga i d _ _; rfl
  | succ fuel ih =>
    intro g ga i d hs hw
    rw [destroy_loop, destroy_loop]
    by_cases h2 : i ≥ 2
    · rw [if_pos h2, if_pos h2]
      have hsa : (scan_row ga i ga.width 0 ≠ ga.width) ↔ (scan_row g i g.width 0 ≠ g.width) := by
        rw [scan_row_congr g ga hs, hw]
      by_cases hsc : scan_row g i g.width 0 ≠ g.width
      · rw [if_pos hsc, if_pos (hsa.mpr hsc)]
        exact ih g ga _ d hs hw
      · rw [if_neg hsc, if_neg (fun hc => hsc (hsa.mp hc))]
        have e := ih { g with spaces := shift_down (g.spaces.set i.toNat 0) i.toNat }
          { ga with spaces := shift_down (ga.spaces.set i.toNat 0) i.toNat }
          (wrap8 (wrap8 (i + 1) - 1)) ((d + 1) % 256) (by simp only; rw [hs]) hw
        rw [e]
    · rw [if_neg h2, if_neg h2]
      simp only [Option.map_some', ← hs]

theorem destroy_loop_frame (fuel : Nat) (g g' : block_game) (i : Int) (d d' : Nat)
    (h : destroy_loop fuel g i d = some (g', d')) : g' = { g with spaces := g'.spaces } := by
  rw [destroy_loop_indep fuel g g i d rfl rfl] at h
  cases hr : destroy_loop fuel g i d with
  | none => rw [hr] at h; exact Option.noConfusion h
  | some r =>
    rw [hr] at h
    simp only [Option.map_some', Option.some.injEq, Prod.mk.injEq] at h
    rw [← h.1]

theorem tally_lose (g : block_game) (d : Nat) : (tally g d).lose = g.lose := by
  unfold tally; simp only; split <;> rfl

theorem tally_set_lose (g : block_game) (d : Nat) (x : Bool) :
    tally { g with lose := x } d = { tally g d with lose := x } := by
  unfold tally; simp only; split <;> rfl

theorem hidden_rows_occupied_iff (g : block_game) :
    hidden_rows_occupied g = true ↔
      ∃ i j : Nat, i < 2 ∧ j < g.width ∧ blocks_at_yx g i j ≠ 0 := by
  simp [hidden_rows_occupied]

theorem flag_loss_lose (g : block_game) :
    (flag_loss g).lose = (hidden_rows_occupied g || g.lose) := by
  unfold flag_loss
  by_cases h : hidden_rows_occupied g = true
  · rw [if_pos h, h]; rfl
  · rw [if_neg h]
    have : hidden_rows_occupied g = false := Bool.eq_false_iff.mpr h
    rw [this]; rfl

theorem flag_loss_eq (g : block_game) :
    flag_loss g = { g with lose := (flag_loss g).lose } := by
  unfold flag_loss; split <;> rfl

theorem flag_loss_height (g : block_game) : (flag_loss g).height = g.height := by
  unfold flag_loss; split <;> rfl

/-- The row loop of `destroy_lines` from its initial index on a board of at most 127 rows
whose row 0 is not full: it finishes within `2*height + 1` iterations.  The number `k` of
destroyed rows, plus one if row 1 ends up full, is the number of full rows in
`[1, height)`. -/
theorem destroy_loop_total (g : block_game) (fuel : Nat)
    (hlen : g.height ≤ g.spaces.length) (h127 : g.height ≤ 127)
    (h0 : row_full g.width (g.spaces.getD 0 0) = false) (hfuel : 2 * g.height < fuel) :
    ∃ (s' : List Nat) (k : Nat),
      destroy_loop fuel g (wrap8 ((g.height : Int) - 1)) 0 = some ({ g with spaces := s' }, k) ∧
      k ≤ g.height ∧
      s'.length = g.spaces.length ∧
      s'.getD 0 0 = g.spaces.getD 0 0 ∧
      (s'.getD 1 0 = g.spaces.getD 1 0 ∨ s'.getD 1 0 = g.spaces.getD 0 0) ∧
      (∀ m, g.height ≤ m → s'.getD m 0 = g.spaces.getD m 0) ∧
      k + (if 2 ≤ g.height ∧ row_full g.width (s'.getD 1 0) = true then 1 else 0)
        = full_rows_in g.width g.spaces 1 g.height ∧
      (∀ m, 2 ≤ m → m < g.height → row_full g.width (s'.getD m 0) = false) := by
  by_cases hsmall : g.height < 2
  · obtain ⟨f, rfl⟩ : ∃ f, fuel = f + 1 := ⟨fuel - 1, by omega⟩
    refine ⟨g.spaces, 0, ?_, by omega, rfl, rfl, Or.inl rfl, fun m _ => rfl, ?_, ?_⟩
    · exact destroy_loop_exit f g _ 0 (by unfold wrap8; omega)
    · have hn : ¬ (2 ≤ g.height ∧ row_full g.width (g.spaces.getD 1 0) = true) :=
        fun hc => absurd hc.1 (by omega)
      rw [if_neg hn]
      have hc : g.height = 0 ∨ g.height = 1 := by omega
      rcases hc with hc | hc <;> rw [hc] <;> rfl
    · intro m h1 h2; omega
  · have hi : wrap8 ((g.height : Int) - 1) = ((g.height - 1 : Nat) : Int) := by
      unfold wrap8; omega
    have hle := full_rows_in_le g.width g.spaces 1 (g.height - 1 + 1)
    obtain ⟨s', k, hrun, hl, hz, ho, hm, hk, hnf⟩ :=
      destroy_loop_count fuel g (g.height - 1) 0 (by omega) (by omega) (by omega)
        (by omega) h0 (by omega)
    have e : g.height - 1 + 1 = g.height := by omega
    rw [e] at hk hle
    have hkk : (0 + k) % 256 = k := by
      have : k ≤ g.height := by
        split at hk <;> omega
      omega
    rw [hkk] at hrun
    refine ⟨s', k, ?_, ?_, hl, hz, ho, fun m hmh => hm m (by omega), ?_, ?_⟩
    · rw [hi]; exact hrun
    · split at hk <;> omega
    · rw [← hk]
      by_cases hr : row_full g.width (s'.getD 1 0) = true
      · have a : 2 ≤ g.height ∧ row_full g.width (s'.getD 1 0) = true := ⟨by omega, hr⟩
        rw [if_pos a, if_pos hr]
      · have a : ¬ (2 ≤ g.height ∧ row_full g.width (s'.getD 1 0) = true) :=
          fun hc => hr hc.2
        rw [if_neg a, if_neg hr]
    · intro m h1 h2; exact hnf m h1 (by omega)

/-- On a board of at most 127 rows whose row 0 is not full, `destroy_lines` returns:
`2*height + 1` iterations of the row loop are enough. -/
theorem destroy_lines_returns (g : block_game) (fuel : Nat)
    (hlen : g.height ≤ g.spaces.length) (h127 : g.height ≤ 127)
    (h0 : row_full g.width (g.spaces.getD 0 0) = false) (hfuel : 2 * g.height < fuel) :
    ∃ n g', destroy_lines fuel g = some (n, g') := by
  obtain ⟨s', k, hrun, -⟩ := destroy_loop_total (flag_loss g) fuel
    (by rw [flag_loss_spaces, flag_loss_height]; exact hlen)
    (by rw [flag_loss_height]; exact h127)
    (by rw [flag_loss_spaces, flag_loss_width]; exact h0)
    (by rw [flag_loss_height]; exact hfuel)
  rw [flag_loss_height] at hrun
  exact ⟨k, tally _ k, by unfold destroy_lines; rw [hrun]⟩

/-! ## C3: the loss flag -/

/-- C3. For every lock event, `write_block g b` followed by `destroy_lines`, on a game
whose `lose` flag is not set: whenever `destroy_lines` returns (`n` rows destroyed, new
game `g'`), `lose` is set in `g'` if and only if, when `destroy_lines` starts, some cell of
rows 0 and 1 in columns `0 .. width-1` is occupied, whether or not rows are destroyed.
The clearing and the tally are carried out all the same: the row loop run on the board
without the loss check destroys the same `n` rows, and `g'` is the `tally` (lines, level,
score) of its result, differing at most in the `lose` flag.  And `destroy_lines` does
return for every board of at most 127 stored rows whose row 0 is not full. -/
theorem lock_event_loss_flag (g : block_game) (b : block) (hlose : g.lose = false) :
    (∀ (fuel n : Nat) (g' : block_game),
      destroy_lines fuel (write_block g b) = some (n, g') →
        (g'.lose = true ↔
          ∃ i j : Nat, i < 2 ∧ j < g.width ∧ blocks_at_yx (write_block g b) i j ≠ 0) ∧
        ∃ gl, destroy_loop fuel (write_block g b) (wrap8 ((g.height : Int) - 1)) 0
              = some (gl, n) ∧
            gl.lose = false ∧ g' = { tally gl n with lose := g'.lose }) ∧
    (g.height ≤ g.spaces.length → g.height ≤ 127 →
      row_full g.width ((write_block g b).spaces.getD 0 0) = false →
      ∃ n g', destroy_lines (2 * g.height + 1) (write_block g b) = some (n, g')) := by
  have hw := write_block_width g b
  have hh := write_block_height g b
  have hl := write_block_length g b
  have hlo := write_block_lose g b
  generalize write_block g b = g1 at *
  constructor
  · intro fuel n g' hres
    unfold destroy_lines at hres
    rw [destroy_loop_indep fuel g1 (flag_loss g1) _ 0 (flag_loss_spaces g1)
      (flag_loss_width g1)] at hres
    cases hr : destroy_loop fuel g1 (wrap8 ((g1.height : Int) - 1)) 0 with
    | none => rw [hr] at hres; exact Option.noConfusion hres
    | some r =>
      obtain ⟨gl, d⟩ := r
      rw [hr] at hres
      simp only [Option.map_some', Option.some.injEq, Prod.mk.injEq] at hres
      obtain ⟨hd, hg'⟩ := hres
      subst hd
      have hfr := destroy_loop_frame fuel g1 gl _ 0 d hr
      have hgl : gl.lose = false := by rw [hfr]; simp only; rw [hlo, hlose]
      have hkey : ({ flag_loss g1 with spaces := gl.spaces } : block_game)
          = { gl with lose := (flag_loss g1).lose } := by
        obtain ⟨s, hs⟩ : ∃ s, gl = { g1 with spaces := s } := ⟨_, hfr⟩
        subst hs
        unfold flag_loss; split <;> rfl
      have hg2 : g' = { tally gl d with lose := (flag_loss g1).lose } := by
        rw [← hg', ← tally_set_lose, hkey]
      have hlose' : g'.lose = (flag_loss g1).lose := by rw [hg2]
      refine ⟨?_, gl, ?_, hgl, ?_⟩
      · rw [hlose', flag_loss_lose, hlo, hlose, Bool.or_false, hidden_rows_occupied_iff, hw]
      · rw [← hh]; exact hr
      · rw [hlose']; exact hg2
  · intro h1 h2 h3
    exact destroy_lines_returns g1 _ (by rw [hh, hl]; exact h1) (by rw [hh]; exact h2)
      (by rw [hw]; exact h3) (by rw [hh]; omega)

theorem lock_event_loss_flag_witness :
    demo_top_game.lose = false ∧
    (∃ n g', destroy_lines (2 * demo_top_game.height + 1)
        (write_block demo_top_game demo_top_square) = some (n, g')) ∧
    (∀ n g', destroy_lines 45 (write_block demo_top_game demo_top_square) = some (n, g') →
        g'.lose = true) ∧
    ((destroy_lines 45 (write_block demo_top_game demo_top_square)).map
        (fun r => (r.1, r.2.lose)) = some (1, true)) :=
  ⟨by decide,
   (lock_event_loss_flag demo_top_game demo_top_square (by decide)).2
      (by decide) (by decide) (by decide),
   fun n g' h =>
     ((lock_event_loss_flag demo_top_game demo_top_square (by decide)).1 45 n g' h).1.mpr
       ⟨1, 4, by decide, by decide, by decide⟩,
   by decide⟩

/-! ## The tally of `destroy_lines` -/

theorem destroy_lines_eq (fuel : Nat) (g : block_game) (n : Nat) (g' : block_game)
    (h : destroy_lines fuel g = some (n, g')) :
    ∃ s', g' = tally { flag_loss g with spaces := s' } n := by
  unfold destroy_lines at h
  cases hr : destroy_loop fuel (flag_loss g) (wrap8 ((g.height : Int) - 1)) 0 with
  | none => rw [hr] at h; exact Option.noConfusion h
  | some r =>
    obtain ⟨gl, d⟩ := r
    rw [hr] at h
    simp only [Option.some.injEq, Prod.mk.injEq] at h
    obtain ⟨hd, hg⟩ := h
    subst hd
    refine ⟨gl.spaces, ?_⟩
    rw [← hg, ← destroy_loop_frame fuel _ gl _ 0 d hr]

theorem flag_loss_level (g : block_game) : (flag_loss g).level = g.level := by
  unfold flag_loss; split <;> rfl

theorem flag_loss_lines (g : block_game) :
    (flag_loss g).lines_destroyed = g.lines_destroyed := by
  unfold flag_loss; split <;> rfl

theorem flag_loss_score (g : block_game) : (flag_loss g).score = g.score := by
  unfold flag_loss; split <;> rfl

theorem flag_loss_diff (g : block_game) : (flag_loss g).diff = g.diff := by
  unfold flag_loss; split <;> rfl

/-- What `tally` stores, field by field. -/
theorem tally_fields (g : block_game) (d : Nat) :
    (tally g d).lines_destroyed =
        (if (g.lines_destroyed + d) % 65536 ≥ g.level * 2 + 5 then 0
         else (g.lines_destroyed + d) % 65536) ∧
    (tally g d).level =
        (if (g.lines_destroyed + d) % 65536 ≥ g.level * 2 + 5 then (g.level + 1) % 65536
         else g.level) ∧
    (tally g d).score =
        (g.score + d * ((tally g d).level * (g.diff + 1))) % 4294967296 ∧
    (tally g d).diff = g.diff := by
  unfold tally; simp only
  split <;> exact ⟨rfl, rfl, rfl, rfl⟩

/-! ## C5: the level rule -/

/-- C5 (amended). For every game with level `L` and counter `c`, and every call of
`destroy_lines` that returns `n` destroyed rows with `c + n` within the range of the
`uint16_t` counter (`c + n < 65536`): if `c + n >= 2*L + 5` the level becomes `L + 1` and
the counter `0`, otherwise the level stays `L` and the counter becomes `c + n`. -/
theorem destroy_lines_level_rule (g : block_game) (fuel n : Nat) (g' : block_game)
    (h : destroy_lines fuel g = some (n, g'))
    (hfit : g.lines_destroyed + n < 65536) :
    (2 * g.level + 5 ≤ g.lines_destroyed + n →
        g'.level = g.level + 1 ∧ g'.lines_destroyed = 0) ∧
    (g.lines_destroyed + n < 2 * g.level + 5 →
        g'.level = g.level ∧ g'.lines_destroyed = g.lines_destroyed + n) := by
  obtain ⟨s', rfl⟩ := destroy_lines_eq fuel g n g' h
  have hL : ({ flag_loss g with spaces := s' } : block_game).level = g.level :=
    flag_loss_level g
  have hC : ({ flag_loss g with spaces := s' } : block_game).lines_destroyed
      = g.lines_destroyed := flag_loss_lines g
  generalize ({ flag_loss g with spaces := s' } : block_game) = g0 at hL hC ⊢
  obtain ⟨hl, hv, -, -⟩ := tally_fields g0 n
  rw [hL, hC, Nat.mod_eq_of_lt hfit] at hl hv
  rw [hl, hv]
  constructor
  · intro hge
    rw [if_pos (by omega), if_pos (by omega)]
    exact ⟨Nat.mod_eq_of_lt (by omega), rfl⟩
  · intro hlt
    rw [if_neg (by omega), if_neg (by omega)]
    exact ⟨rfl, rfl⟩


theorem destroy_lines_level_rule_witness :
    destroy_lines 45 demo_levelup_game
      = some (1, { demo_levelup_game with
          spaces := List.replicate 22 0, level := 2, lines_destroyed := 0, score := 4 }) ∧
    demo_levelup_game.lines_destroyed + 1 < 65536 ∧
    ((2 * demo_levelup_game.level + 5 ≤ demo_levelup_game.lines_destroyed + 1 →
        (2 : Nat) = demo_levelup_game.level + 1 ∧ (0 : Nat) = 0) ∧
     (demo_levelup_game.lines_destroyed + 1 < 2 * demo_levelup_game.level + 5 →
        (2 : Nat) = demo_levelup_game.level ∧
        (0 : Nat) = demo_levelup_game.lines_destroyed + 1)) :=
  ⟨by decide, by decide,
   destroy_lines_level_rule demo_levelup_game 45 1
     { demo_levelup_game with
          spaces := List.replicate 22 0, level := 2, lines_destroyed := 0, score := 4 }
     (by decide) (by decide)⟩

/-- C5, counterexample to the claim as stated: with the counter at 65535 and level 1, a
call that destroys one row has `c + n = 65536 >= 2*1 + 5`, yet the level stays 1 (the
`uint16_t` counter wraps to 0 before it is compared). -/
theorem level_rule_counterexample :
    ∃ n g', destroy_lines 45 demo_counter_game = some (n, g') ∧
      2 * demo_counter_game.level + 5 ≤ demo_counter_game.lines_destroyed + n ∧
      ¬ (g'.level = demo_counter_game.level + 1 ∧ g'.lines_destroyed = 0) :=
  ⟨1, { demo_counter_game with
          spaces := List.replicate 22 0, lines_destroyed := 0, score := 2 },
   by decide, by decide, by decide⟩

/-! ## C6: the score rule -/

/-- C6 (amended). For every game with difficulty tier `D` and every call of `destroy_lines`
that returns `n` destroyed rows and leaves the level at `L'` (the level after any level-up
of this call): if the new total `score + n * L' * (D + 1)` is within the range of the
`uint32_t` score, the score grows by exactly `n * L' * (D + 1)`; in particular by
`n * L * (D + 1)` when the level is still `L`, and it is unchanged when `n = 0`. -/
theorem destroy_lines_score_rule (g : block_game) (fuel n : Nat) (g' : block_game)
    (h : destroy_lines fuel g = some (n, g'))
    (hfit : g.score + n * g'.level * (g.diff + 1) < 4294967296) :
    g'.score = g.score + n * g'.level * (g.diff + 1) ∧
    (g'.level = g.level → g'.score = g.score + n * g.level * (g.diff + 1)) ∧
    (n = 0 → g'.score = g.score) := by
  obtain ⟨s', rfl⟩ := destroy_lines_eq fuel g n g' h
  have hS : ({ flag_loss g with spaces := s' } : block_game).score = g.score :=
    flag_loss_score g
  have hD : ({ flag_loss g with spaces := s' } : block_game).diff = g.diff :=
    flag_loss_diff g
  generalize ({ flag_loss g with spaces := s' } : block_game) = g0 at hS hD hfit ⊢
  obtain ⟨-, -, hs, -⟩ := tally_fields g0 n
  rw [hS, hD] at hs
  have e : n * ((tally g0 n).level * (g.diff + 1)) = n * (tally g0 n).level * (g.diff + 1) := by
    rw [Nat.mul_assoc]
  rw [e, Nat.mod_eq_of_lt hfit] at hs
  refine ⟨hs, fun hl => by rw [hs, hl], fun hn => ?_⟩
  rw [hs, hn]; simp

theorem destroy_lines_score_rule_witness :
    destroy_lines 45 demo_levelup_game
      = some (1, { demo_levelup_game with
          spaces := List.replicate 22 0, level := 2, lines_destroyed := 0, score := 4 }) ∧
    demo_levelup_game.score + 1 * 2 * (demo_levelup_game.diff + 1) < 4294967296 ∧
    ((4 : Nat) = demo_levelup_game.score + 1 * 2 * (demo_levelup_game.diff + 1) ∧
     ((2 : Nat) = demo_levelup_game.level →
        (4 : Nat) = demo_levelup_game.score + 1 * demo_levelup_game.level *
          (demo_levelup_game.diff + 1)) ∧
     ((1 : Nat) = 0 → (4 : Nat) = demo_levelup_game.score)) :=
  ⟨by decide, by decide,
   destroy_lines_score_rule demo_levelup_game 45 1
     { demo_levelup_game with
          spaces := List.replicate 22 0, level := 2, lines_destroyed := 0, score := 4 }
     (by decide) (by decide)⟩

/-- C6, counterexample to the claim as stated: with the score at `2^32 - 1`, level 1 and
tier 1, a call that destroys one row should add `1 * 1 * 2`; the `uint32_t` score wraps
to 1 instead. -/
theorem score_rule_counterexample :
    ∃ n g', destroy_lines 45 demo_score_game = some (n, g') ∧
      g'.score ≠ demo_score_game.score + n * g'.level * (demo_score_game.diff + 1) ∧
      g'.score = 1 :=
  ⟨1, { demo_score_game with
          spaces := List.replicate 22 0, lines_destroyed := 1, score := 1 },
   by decide, by decide, by decide⟩

/-! ## C9: the returned count -/

theorem full_rows_in_congr (w : Nat) (s s2 : List Nat) (lo : Nat) : ∀ n : Nat,
    (∀ i, lo ≤ i → i < n → s2.getD i 0 = s.getD i 0) →
    full_rows_in w s2 lo n = full_rows_in w s lo n := by
  intro n
  induction n with
  | zero => intro _; rfl
  | succ n ih =>
    intro h
    rw [full_rows_in_succ, full_rows_in_succ, ih (fun i h1 h2 => h i h1 (by omega))]
    by_cases hl : lo ≤ n
    · rw [h n hl (by omega)]
    · have a1 : ¬ (lo ≤ n ∧ row_full w (s2.getD n 0) = true) := fun hc => hl hc.1
      have a2 : ¬ (lo ≤ n ∧ row_full w (s.getD n 0) = true) := fun hc => hl hc.1
      rw [if_neg a1, if_neg a2]

/-- With neither hidden row full, `destroy_lines` returns the number of full rows with
index in `[2, height)`. -/
theorem destroy_lines_returns_count (g : block_game) (fuel : Nat)
    (hlen : g.height ≤ g.spaces.length) (h127 : g.height ≤ 127)
    (h0 : row_full g.width (g.spaces.getD 0 0) = false)
    (h1 : row_full g.width (g.spaces.getD 1 0) = false)
    (hfuel : 2 * g.height < fuel) :
    ∃ g', destroy_lines fuel g = some (full_rows_in g.width g.spaces 2 g.height, g') := by
  obtain ⟨s', k, hrun, -, -, -, ho, -, hk, -⟩ := destroy_loop_total (flag_loss g) fuel
    (by rw [flag_loss_spaces, flag_loss_height]; exact hlen)
    (by rw [flag_loss_height]; exact h127)
    (by rw [flag_loss_spaces, flag_loss_width]; exact h0)
    (by rw [flag_loss_height]; exact hfuel)
  rw [flag_loss_height] at hrun hk
  rw [flag_loss_spaces, flag_loss_width] at hk
  rw [flag_loss_spaces] at ho
  have hs1 : row_full g.width (s'.getD 1 0) = false := by
    rcases ho with ho | ho <;> rw [ho] <;> assumption
  have hn : ¬ (2 ≤ g.height ∧ row_full g.width (s'.getD 1 0) = true) :=
    fun hc => by rw [hs1] at hc; exact Bool.noConfusion hc.2
  rw [if_neg hn, Nat.add_zero, full_rows_in_lower g.width g.spaces 1 h1] at hk
  have hk' : k = full_rows_in g.width g.spaces 2 g.height := hk
  subst hk'
  exact ⟨tally _ _, by unfold destroy_lines; rw [hrun]⟩

/-- C9 (amended). For every board of at most 127 stored rows on which neither hidden row
(row 0, row 1) is full, `destroy_lines` returns exactly the number of rows with index in
`[2, height)` that are full just before the call; and that count is the same for every
other such board with the same rows `2 .. height-1`, whatever its rows 0 and 1 hold (as
long as they are not full). -/
theorem destroy_lines_count (g : block_game) (fuel : Nat)
    (hlen : g.height ≤ g.spaces.length) (h127 : g.height ≤ 127)
    (h0 : row_full g.width (g.spaces.getD 0 0) = false)
    (h1 : row_full g.width (g.spaces.getD 1 0) = false)
    (hfuel : 2 * g.height < fuel) :
    (∃ g', destroy_lines fuel g = some (full_rows_in g.width g.spaces 2 g.height, g')) ∧
    (∀ g2 : block_game, g2.width = g.width → g2.height = g.height →
      g2.height ≤ g2.spaces.length →
      row_full g2.width (g2.spaces.getD 0 0) = false →
      row_full g2.width (g2.spaces.getD 1 0) = false →
      (∀ i, 2 ≤ i → i < g.height → g2.spaces.getD i 0 = g.spaces.getD i 0) →
      ∃ g2', destroy_lines fuel g2
        = some (full_rows_in g.width g.spaces 2 g.height, g2')) := by
  refine ⟨destroy_lines_returns_count g fuel hlen h127 h0 h1 hfuel, ?_⟩
  intro g2 hw hh hlen2 h02 h12 hrows
  have := destroy_lines_returns_count g2 fuel hlen2 (by omega) h02 h12 (by omega)
  rw [hw, hh, full_rows_in_congr g.width g.spaces g2.spaces 2 g.height hrows] at this
  exact this

theorem destroy_lines_count_witness :
    (∃ g', destroy_lines 45 demo_hidden_empty_game = some (1, g')) ∧
    full_rows_in demo_hidden_empty_game.width demo_hidden_empty_game.spaces 2
      demo_hidden_empty_game.height = 1 :=
  ⟨(destroy_lines_count demo_hidden_empty_game 45 (by decide) (by decide) (by decide)
      (by decide) (by decide)).1, by decide⟩

/-- C9, counterexample to the claim as stated: on a 10x22 board whose rows 1 and 2 are
full and whose other rows are empty, exactly one row with index in `[2, 22)` is full, yet
`destroy_lines` returns 2 (the full hidden row 1 is shifted into row 2 and destroyed
there); with row 1 emptied and rows `2 .. 21` as before it returns 1, so the count does
depend on row 1. -/
theorem hidden_row_counted_counterexample :
    full_rows_in demo_hidden_full_game.width demo_hidden_full_game.spaces 2
      demo_hidden_full_game.height = 1 ∧
    (destroy_lines 45 demo_hidden_full_game).map (fun r => r.1) = some 2 ∧
    (destroy_lines 45 demo_hidden_empty_game).map (fun r => r.1) = some 1 ∧
    demo_hidden_empty_game.spaces.drop 2 = demo_hidden_full_game.spaces.drop 2 := by
  decide

/-! ## C7: translation -/

theorem translate_dir_cases (cmd : block_cmd) : translate_dir cmd = -1 ∨ translate_dir cmd = 1 := by
  unfold translate_dir; split <;> simp

theorem translate_blocked_iff (g : block_game) (b : block) (q : pieces) (d : Int)
    (hd : d = -1 ∨ d = 1) (hw : g.width ≤ 127)
    (hy : 0 ≤ cell_y b q ∧ cell_y b q < g.height) :
    blocked_at g (wrap8 (q.x + b.col_off + d)) (wrap8 (q.y + b.row_off)) = true ↔
      (cell_x b q + d < 0 ∨ (g.width : Int) ≤ cell_x b q + d ∨
        blocks_at_yx g (cell_y b q) (cell_x b q + d) ≠ 0) := by
  have ey : wrap8 (q.y + b.row_off) = cell_y b q := by unfold cell_y; rw [Int.add_comm]
  rw [ey]
  have hx : (0 ≤ wrap8 (q.x + b.col_off + d) ∧ wrap8 (q.x + b.col_off + d) < g.width) ∨
      (0 ≤ cell_x b q + d ∧ cell_x b q + d < g.width) →
      wrap8 (q.x + b.col_off + d) = cell_x b q + d := by
    unfold cell_x wrap8; omega
  by_cases hin : 0 ≤ cell_x b q + d ∧ cell_x b q + d < g.width
  · rw [hx (Or.inr hin)]
    simp only [blocked_at, Bool.or_eq_true, decide_eq_true_eq, ne_eq, ge_iff_le]
    constructor
    · intro h; rcases h with h | h
      · omega
      · exact Or.inr (Or.inr h)
    · intro h; rcases h with h | h | h
      · omega
      · omega
      · exact Or.inr h
  · have hout : ¬ (0 ≤ wrap8 (q.x + b.col_off + d) ∧ wrap8 (q.x + b.col_off + d) < g.width) := by
      intro hc; rw [hx (Or.inl hc)] at hc; exact hin hc
    constructor
    · intro _; omega
    · intro _
      simp only [blocked_at, Bool.or_eq_true, decide_eq_true_eq, ne_eq, ge_iff_le]
      omega

theorem translate_block_reject {g : block_game} {b : block} {cmd : block_cmd}
    (hany : b.p.any (fun q =>
      blocked_at g (wrap8 (q.x + b.col_off + translate_dir cmd)) (wrap8 (q.y + b.row_off)))
        = true) :
    translate_block g b cmd = (-1, b) := by
  unfold translate_block; rw [if_pos hany]

theorem translate_block_commit {g : block_game} {b : block} {cmd : block_cmd}
    (hany : ¬ b.p.any (fun q =>
      blocked_at g (wrap8 (q.x + b.col_off + translate_dir cmd)) (wrap8 (q.y + b.row_off)))
        = true) :
    translate_block g b cmd =
      (1, { b with col_off := (((b.col_off : Int) + translate_dir cmd) % 256).toNat }) := by
  unfold translate_block; rw [if_neg hany]

/-- C7. For every board of width at most 127 (the range of the `int8_t` column
arithmetic), every block whose four cells lie within the rows of the board and every
command (`MOVE_LEFT` is direction `d = -1`, anything else `d = +1`): `translate_block`
returns `-1` exactly when one of the four candidate cells (column `+ d`, same row) is
outside the columns `[0, width)` or occupied, and then the block is returned as it was.
Otherwise it returns `1` and the only change is `col_off += d` (a `uint8_t`: the new
value is `col_off + d` itself whenever that lies in `0 .. 255`), which moves the column
of every cell by exactly `d` and leaves its row alone.  The board is only read. -/
theorem translate_block_spec (g : block_game) (b : block) (cmd : block_cmd)
    (hw : g.width ≤ 127)
    (hrows : ∀ q ∈ b.p, 0 ≤ cell_y b q ∧ cell_y b q < g.height) :
    ((translate_block g b cmd).1 = -1 ↔
      ∃ q ∈ b.p, cell_x b q + translate_dir cmd < 0 ∨
        (g.width : Int) ≤ cell_x b q + translate_dir cmd ∨
        blocks_at_yx g (cell_y b q) (cell_x b q + translate_dir cmd) ≠ 0) ∧
    ((translate_block g b cmd).1 = -1 → (translate_block g b cmd).2 = b) ∧
    ((translate_block g b cmd).1 ≠ -1 →
      (translate_block g b cmd).1 = 1 ∧
      (translate_block g b cmd).2 =
        { b with col_off := (((b.col_off : Int) + translate_dir cmd) % 256).toNat } ∧
      (0 ≤ (b.col_off : Int) + translate_dir cmd → (b.col_off : Int) + translate_dir cmd ≤ 255 →
        ((translate_block g b cmd).2.col_off : Int) = (b.col_off : Int) + translate_dir cmd) ∧
      ∀ q ∈ b.p,
        cell_x (translate_block g b cmd).2 q = cell_x b q + translate_dir cmd ∧
        cell_y (translate_block g b cmd).2 q = cell_y b q) := by
  have hd := translate_dir_cases cmd
  by_cases hany : b.p.any (fun q =>
      blocked_at g (wrap8 (q.x + b.col_off + translate_dir cmd)) (wrap8 (q.y + b.row_off)))
        = true
  · rw [translate_block_reject hany]
    refine ⟨⟨fun _ => ?_, fun _ => rfl⟩, fun _ => rfl, fun h => absurd rfl h⟩
    obtain ⟨q, hq, hb⟩ := List.any_eq_true.mp hany
    exact ⟨q, hq, (translate_blocked_iff g b q _ hd hw (hrows q hq)).mp hb⟩
  · rw [translate_block_commit hany]
    have hall := any_false_forall hany
    refine ⟨⟨fun h => absurd (show (1 : Int) = -1 from h) (by decide), fun h => ?_⟩,
      fun h => absurd (show (1 : Int) = -1 from h) (by decide),
      fun _ => ⟨rfl, rfl, fun h0 h255 => by simp only; omega, fun q hq => ?_⟩⟩
    · obtain ⟨q, hq, hb⟩ := h
      have := (translate_blocked_iff g b q _ hd hw (hrows q hq)).mpr hb
      rw [hall q hq] at this
      exact Bool.noConfusion this
    · have hb := blocked_at_false (hall q hq)
      constructor
      · have e : cell_x { b with col_off := (((b.col_off : Int) + translate_dir cmd) % 256).toNat } q
            = wrap8 (q.x + b.col_off + translate_dir cmd) := by
          unfold cell_x wrap8; simp only; omega
        rw [e]
        revert hb
        unfold cell_x wrap8
        intro hb
        omega
      · rfl

theorem translate_block_spec_witness :
    demo_game.width ≤ 127 ∧
    (∀ q ∈ demo_square.p, 0 ≤ cell_y demo_square q ∧ cell_y demo_square q < demo_game.height) ∧
    (translate_block demo_game demo_square block_cmd.MOVE_LEFT).1 = -1 ∧
    (translate_block demo_game demo_square block_cmd.MOVE_LEFT).2 = demo_square ∧
    (translate_block (blocks_init 0 1 2 3 4 5).game demo_square block_cmd.MOVE_RIGHT).1 = 1 ∧
    (translate_block (blocks_init 0 1 2 3 4 5).game demo_square block_cmd.MOVE_RIGHT).2
      = { demo_square with col_off := 6 } :=
  ⟨by decide, by decide,
   (translate_block_spec demo_game demo_square block_cmd.MOVE_LEFT (by decide)
      (by decide)).1.mpr ⟨demo_square.p2, by decide, by decide⟩,
   (translate_block_spec demo_game demo_square block_cmd.MOVE_LEFT (by decide)
      (by decide)).2.1 (by decide),
   ((translate_block_spec (blocks_init 0 1 2 3 4 5).game demo_square block_cmd.MOVE_RIGHT
      (by decide) (by decide)).2.2 (by decide)).1,
   ((translate_block_spec (blocks_init 0 1 2 3 4 5).game demo_square block_cmd.MOVE_RIGHT
      (by decide) (by decide)).2.2 (by decide)).2.1⟩

/-! ## C8: the hard drop -/

theorem drop_block_blocked {g : block_game} {b : block}
    (hany : b.p.any (fun q =>
      decide (wrap8 (q.y + b.row_off + 1) ≥ (g.height : Int)) ||
      decide (blocks_at_yx g (wrap8 (q.y + b.row_off + 1)) (wrap8 (q.x + b.col_off)) ≠ 0))
        = true) :
    drop_block g b = (0, b) := by
  unfold drop_block; rw [if_pos hany]

theorem drop_block_advance {g : block_game} {b : block}
    (hany : ¬ b.p.any (fun q =>
      decide (wrap8 (q.y + b.row_off + 1) ≥ (g.height : Int)) ||
      decide (blocks_at_yx g (wrap8 (q.y + b.row_off + 1)) (wrap8 (q.x + b.col_off)) ≠ 0))
        = true) :
    drop_block g b = (1, { b with row_off := (b.row_off + 1) % 256 }) := by
  unfold drop_block; rw [if_neg hany]

theorem mem_p_row_off (b : block) (r : Nat) (q : pieces) :
    q ∈ ({ b with row_off := r } : block).p ↔ q ∈ b.p := Iff.rfl

/-- One `drop_block` on a block that sits on the board without wrap-around: it returns `0`
exactly when some cell one row down is past the last row or occupied, and otherwise moves
the pivot one row down, to a position that is again on the board. -/
theorem drop_block_on_board (g : block_game) (b : block)
    (hw : g.width ≤ 127) (hh : g.height ≤ 127)
    (hr : ∀ q ∈ b.p, -128 ≤ q.y) (hb : on_board g b) :
    (drop_block g b = (0, b) ∧
      ∃ q ∈ b.p, (g.height : Int) ≤ (b.row_off : Int) + q.y + 1 ∨
        blocks_at_yx g ((b.row_off : Int) + q.y + 1) ((b.col_off : Int) + q.x) ≠ 0) ∨
    (drop_block g b = (1, { b with row_off := b.row_off + 1 }) ∧
      on_board g { b with row_off := b.row_off + 1 }) := by
  have hcell : ∀ q ∈ b.p, wrap8 (q.y + b.row_off + 1) = (b.row_off : Int) + q.y + 1 ∧
      wrap8 (q.x + b.col_off) = (b.col_off : Int) + q.x := by
    intro q hq
    have := hb q hq
    unfold wrap8; omega
  by_cases hany : b.p.any (fun q =>
      decide (wrap8 (q.y + b.row_off + 1) ≥ (g.height : Int)) ||
      decide (blocks_at_yx g (wrap8 (q.y + b.row_off + 1)) (wrap8 (q.x + b.col_off)) ≠ 0))
        = true
  · left
    refine ⟨drop_block_blocked hany, ?_⟩
    obtain ⟨q, hq, hc⟩ := List.any_eq_true.mp hany
    rw [(hcell q hq).1, (hcell q hq).2] at hc
    simp only [Bool.or_eq_true, decide_eq_true_eq, ne_eq, ge_iff_le] at hc
    exact ⟨q, hq, hc⟩
  · right
    have hall := any_false_forall hany
    have hp0 := hb b.p0 (by simp [block.p])
    have hc0 := hall b.p0 (by simp [block.p])
    rw [(hcell b.p0 (by simp [block.p])).1] at hc0
    simp only [Bool.or_eq_false_iff, decide_eq_false_iff_not, ge_iff_le, not_le] at hc0
    have hr0 := hr b.p0 (by simp [block.p])
    have hmod : (b.row_off + 1) % 256 = b.row_off + 1 := by omega
    refine ⟨by rw [drop_block_advance hany, hmod], ?_⟩
    intro q hq
    have hq' : q ∈ b.p := hq
    have h1 := hb q hq'
    have h2 := hall q hq'
    rw [(hcell q hq').1, (hcell q hq').2] at h2
    simp only [Bool.or_eq_false_iff, decide_eq_false_iff_not, ge_iff_le, not_le, ne_eq,
      not_not] at h2
    have e : (((b.row_off + 1 : Nat) : Int)) + q.y = (b.row_off : Int) + q.y + 1 := by
      push_cast; omega
    simp only
    rw [e]
    exact ⟨h1.1, h1.2.1, by omega, h2.1, h2.2⟩

theorem hard_drop_aux (g : block_game) (hw : g.width ≤ 127) (hh : g.height ≤ 127) :
    ∀ (fuel : Nat) (b : block), (∀ q ∈ b.p, -128 ≤ q.y) → on_board g b →
      (g.height : Int) - ((b.row_off : Int) + b.p0.y) ≤ fuel →
      ∃ k : Nat, (k : Int) < (g.height : Int) - ((b.row_off : Int) + b.p0.y) ∧
        hard_drop fuel g b = some { b with row_off := b.row_off + k } ∧
        (∀ j, j ≤ k → on_board g { b with row_off := b.row_off + j }) ∧
        drop_block g { b with row_off := b.row_off + k }
          = (0, { b with row_off := b.row_off + k }) ∧
        (∃ q ∈ b.p, (g.height : Int) ≤ ((b.row_off + k : Nat) : Int) + q.y + 1 ∨
          blocks_at_yx g (((b.row_off + k : Nat) : Int) + q.y + 1)
            ((b.col_off : Int) + q.x) ≠ 0) := by
  intro fuel
  induction fuel with
  | zero =>
    intro b _ hb hf
    have := hb b.p0 (by simp [block.p])
    omega
  | succ fuel ih =>
    intro b hr hb hf
    have hp0 := hb b.p0 (by simp [block.p])
    rcases drop_block_on_board g b hw hh hr hb with ⟨hd, hq⟩ | ⟨hd, hb1⟩
    · refine ⟨0, by omega, ?_, ?_, hd, hq⟩
      · rw [hard_drop, hd]; rfl
      · intro j hj
        have : j = 0 := by omega
        subst this
        exact hb
    · obtain ⟨k, hk, hrun, hall, hstop, hq⟩ :=
        ih { b with row_off := b.row_off + 1 } hr hb1 (by simp only; push_cast; omega)
      have e : b.row_off + 1 + k = b.row_off + (k + 1) := by omega
      simp only [e] at hrun hall hstop hq
      refine ⟨k + 1, by simp only at hk; push_cast at hk ⊢; omega, ?_, ?_, hstop, hq⟩
      · rw [hard_drop, hd, if_pos rfl]; exact hrun
      · intro j hj
        rcases Nat.eq_zero_or_pos j with h0 | hpos
        · subst h0; exact hb
        · obtain ⟨j', rfl⟩ : ∃ j', j = j' + 1 := ⟨j - 1, by omega⟩
          have := hall j' (by omega)
          have e2 : b.row_off + 1 + j' = b.row_off + (j' + 1) := by omega
          simp only [e2] at this
          exact this

/-- C8. For every board with `width, height <= 127` (the range of the `int8_t`
arithmetic), every block with `int8_t` row offsets whose four cells (pivot + offset) are
in bounds and unoccupied: the hard drop, `while (drop_block (b) == 1);`, terminates within
`height` calls of `drop_block` (`k` successful ones and the final blocked one,
`k + 1 <= height`).  It leaves the block with the same columns, offsets, colour and shape
and with `row_off` raised by `k >= 0`; the block is in bounds and unoccupied at every row
offset from the start up to the final one; one row further down some cell would be past
the last row or on an occupied cell, and `drop_block` there returns `0` and changes
nothing. -/
theorem hard_drop_spec (g : block_game) (b : block) (fuel : Nat)
    (hw : g.width ≤ 127) (hh : g.height ≤ 127)
    (hr : ∀ q ∈ b.p, -128 ≤ q.y) (hb : on_board g b) (hf : g.height ≤ fuel) :
    ∃ k : Nat, k + 1 ≤ g.height ∧
      hard_drop fuel g b = some { b with row_off := b.row_off + k } ∧
      (∀ j, j ≤ k → on_board g { b with row_off := b.row_off + j }) ∧
      (∃ q ∈ b.p, (g.height : Int) ≤ ((b.row_off + k : Nat) : Int) + q.y + 1 ∨
        blocks_at_yx g (((b.row_off + k : Nat) : Int) + q.y + 1)
          ((b.col_off : Int) + q.x) ≠ 0) ∧
      drop_block g { b with row_off := b.row_off + k }
        = (0, { b with row_off := b.row_off + k }) := by
  have hp0 := hb b.p0 (by simp [block.p])
  obtain ⟨k, hk, hrun, hall, hstop, hq⟩ :=
    hard_drop_aux g hw hh fuel b hr hb (by omega)
  exact ⟨k, by omega, hrun, hall, hq, hstop⟩

theorem hard_drop_spec_witness :
    on_board (blocks_init 0 1 2 3 4 5).game (blocks_init 0 1 2 3 4 5).blocks0 ∧
    ∃ k : Nat, k + 1 ≤ 22 ∧
      hard_drop 22 (blocks_init 0 1 2 3 4 5).game (blocks_init 0 1 2 3 4 5).blocks0
        = some { (blocks_init 0 1 2 3 4 5).blocks0 with
            row_off := (blocks_init 0 1 2 3 4 5).blocks0.row_off + k } :=
  ⟨by decide,
   (hard_drop_spec (blocks_init 0 1 2 3 4 5).game (blocks_init 0 1 2 3 4 5).blocks0 22
      (by decide) (by decide) (by decide) (by decide) (by decide)).imp
      (fun _ h => ⟨h.1, h.2.1⟩)⟩

/-! ## C4: the hold swap -/

/-- C4, the code at the failing input.  From `blocks_init` (here with `rand ()` values
0, 1, 2 for the shapes), a first hold swap puts the then-next block `blocks[1]` in the
hold slot and makes `blocks[2]` the next block, as claimed.  A second hold swap issued
right away, with no lock event in between, is not rejected: it exchanges the two slots
again, so the next block is `blocks[1]` (a line instead of the T), and the hold slot
holds `blocks[2]`.  `hold_swap` has no test of an already-used hold. -/
theorem hold_swap_second_not_rejected :
    (blocks_input 0 key.SPACE (blocks_init 0 1 2 3 4 5)).map
        (fun s => (s.game.save, s.game.next, (s.blocks s.game.next).type))
      = some (some 1, 2, T_BLOCK) ∧
    ((blocks_input 0 key.SPACE (blocks_init 0 1 2 3 4 5)).bind
        (blocks_input 0 key.SPACE)).map
        (fun s => (s.game.save, s.game.next, (s.blocks s.game.next).type))
      = some (some 2, 1, LINE_BLOCK) := by
  decide

/-- The hold swap is never rejected: whatever the game, `hold_swap` moves the next block
to the hold slot, and applied twice in a row it brings the original next block back. -/
theorem hold_swap_always_swaps (g : block_game) :
    (hold_swap g).save = some g.next ∧
    (hold_swap (hold_swap g)).next = g.next := by
  unfold hold_swap; exact ⟨rfl, rfl⟩

/-! ## C10: the current block of a reachable session -/

theorem set_block_game (s : session) (i : Fin 3) (b : block) :
    (s.set_block i b).game = s.game := by
  unfold session.set_block; split_ifs <;> rfl

theorem set_block_same (s : session) (i : Fin 3) (b : block) :
    (s.set_block i b).blocks i = b := by
  unfold session.set_block session.blocks
  split_ifs <;> rfl

theorem set_block_other (s : session) (i j : Fin 3) (b : block) (h : j ≠ i) :
    (s.set_block i b).blocks j = s.blocks j := by
  have hv : j.val ≠ i.val := fun hc => h (Fin.ext hc)
  unfold session.set_block session.blocks
  split_ifs <;> first | rfl | omega

theorem random_block_spawned (r : Nat) (b : block) : spawned (random_block 10 r b) := by
  have ht : (r % 256) % 7 < 7 := Nat.mod_lt _ (by decide)
  refine ⟨(r % 256) % 7, ht, ?_⟩
  unfold random_block
  simp only [NUM_BLOCKS]
  generalize (r % 256) % 7 = t at ht
  interval_cases t <;> exact ⟨rfl, rfl, rfl⟩

theorem spawned_congr {b b' : block} (hc : b'.col_off = b.col_off)
    (hr : b'.row_off = b.row_off) (hp : b'.p = b.p) (h : spawned b) : spawned b' := by
  obtain ⟨t, ht, h1, h2, h3⟩ := h
  exact ⟨t, ht, by rw [hc, h1], by rw [hr, h2], by rw [hp, h3]⟩

theorem spawn_shapes (t : Nat) (ht : t < 7) :
    (∀ q ∈ (random_block 10 t zero_block).p,
      -2 ≤ q.x ∧ q.x ≤ 2 ∧ -2 ≤ q.y ∧ q.y ≤ 2 ∧
      0 ≤ ((random_block 10 t zero_block).col_off : Int) + q.x ∧
      ((random_block 10 t zero_block).col_off : Int) + q.x < 10 ∧
      0 ≤ ((random_block 10 t zero_block).row_off : Int) + q.y ∧
      ((random_block 10 t zero_block).row_off : Int) + q.y < 2) ∧
    (⟨0, 0⟩ : pieces) ∈ (random_block 10 t zero_block).p := by
  interval_cases t <;> decide

theorem hidden_free_at (g : block_game) (h : hidden_free g) (y x : Int)
    (hy0 : 0 ≤ y) (hy : y < 2) (hx0 : 0 ≤ x) (hx : x < g.width) :
    blocks_at_yx g y x = 0 := by
  have := h y.toNat x.toNat (by omega) (by omega)
  rw [Int.toNat_of_nonneg hy0, Int.toNat_of_nonneg hx0] at this
  exact this

/-- A freshly spawned block on a 10x22 board with free hidden rows has small offsets
around its pivot and sits on the board. -/
theorem spawned_on_board (g : block_game) (b : block) (hw : g.width = 10)
    (hh : g.height = 22) (hf : hidden_free g) (hs : spawned b) :
    small_offsets b ∧ has_pivot b ∧ on_board g b := by
  obtain ⟨t, ht, hc, hr, hp⟩ := hs
  obtain ⟨hall, hpiv⟩ := spawn_shapes t ht
  refine ⟨?_, ?_, ?_⟩
  · intro q hq
    rw [hp] at hq
    have := hall q hq
    exact ⟨this.1, this.2.1, this.2.2.1, this.2.2.2.1⟩
  · unfold has_pivot; rw [hp]; exact hpiv
  · intro q hq
    rw [hp] at hq
    have := hall q hq
    rw [← hc, ← hr] at this
    refine ⟨this.2.2.2.2.1, by omega, this.2.2.2.2.2.2.1, by omega, ?_⟩
    exact hidden_free_at g hf _ _ this.2.2.2.2.2.2.1 this.2.2.2.2.2.2.2 this.2.2.2.2.1
      (by omega)

theorem rotate_mod_cases (cmd : block_cmd) : rotate_mod cmd = -1 ∨ rotate_mod cmd = 1 := by
  unfold rotate_mod; split <;> simp

theorem translate_block_keeps (g : block_game) (b : block) (cmd : block_cmd)
    (hw : g.width = 10) (hh : g.height = 22) (hb : piece_ok g b) :
    piece_ok g (translate_block g b cmd).2 := by
  obtain ⟨hsm, hpv, hon⟩ := hb
  by_cases hany : b.p.any (fun q =>
      blocked_at g (wrap8 (q.x + b.col_off + translate_dir cmd)) (wrap8 (q.y + b.row_off)))
        = true
  · rw [translate_block_reject hany]; exact ⟨hsm, hpv, hon⟩
  · rw [translate_block_commit hany]
    have hall := any_false_forall hany
    have hd := translate_dir_cases cmd
    have hp0 := hon _ hpv
    have hb0 := blocked_at_false (hall _ hpv)
    simp only at hp0 hb0
    have hcol : ((((b.col_off : Int) + translate_dir cmd) % 256).toNat : Int)
        = (b.col_off : Int) + translate_dir cmd := by
      revert hb0; unfold wrap8; intro hb0; omega
    refine ⟨hsm, hpv, ?_⟩
    intro q hq
    have hq' : q ∈ b.p := hq
    have h1 := hon q hq'
    have h2 := blocked_at_false (hall q hq')
    have ex : wrap8 (q.x + b.col_off + translate_dir cmd)
        = (b.col_off : Int) + translate_dir cmd + q.x := by
      unfold wrap8; omega
    have ey : wrap8 (q.y + b.row_off) = (b.row_off : Int) + q.y := by
      unfold wrap8; omega
    rw [ex, ey] at h2
    simp only
    rw [hcol]
    exact ⟨h2.1, h2.2.1, h2.2.2.1, h2.2.2.2.1, h2.2.2.2.2⟩

theorem rotate_piece_mem {m : Int} {b : block} {q : pieces} (hq : q ∈ b.p) :
    rotate_piece m q ∈ (rotate_pieces m b).p := by
  simp only [block.p, rotate_pieces, List.mem_cons, List.mem_singleton, List.not_mem_nil,
    or_false] at hq ⊢
  rcases hq with h | h | h | h <;> subst h <;> simp

theorem rotate_block_keeps (g : block_game) (b : block) (cmd : block_cmd)
    (hw : g.width = 10) (hh : g.height = 22) (hb : piece_ok g b) :
    piece_ok g (rotate_block g b cmd).2 := by
  obtain ⟨hsm, hpv, hon⟩ := hb
  by_cases hsq : b.type = SQUARE_BLOCK
  · rw [rotate_block_square hsq]; exact ⟨hsm, hpv, hon⟩
  · by_cases hany : b.p.any (fun q =>
        blocked_at g (wrap8 (q.y * (-(rotate_mod cmd)) + b.col_off))
          (wrap8 (q.x * (rotate_mod cmd) + b.row_off))) = true
    · rw [rotate_block_reject hsq hany]; exact ⟨hsm, hpv, hon⟩
    · rw [rotate_block_commit hsq hany]
      have hall := any_false_forall hany
      have hp0 := hon _ hpv
      simp only at hp0
      have hrot : ∀ q ∈ b.p,
          (rotate_piece (rotate_mod cmd) q).x = q.y * (-(rotate_mod cmd)) ∧
          (rotate_piece (rotate_mod cmd) q).y = q.x * (rotate_mod cmd) ∧
          -2 ≤ q.y * (-(rotate_mod cmd)) ∧ q.y * (-(rotate_mod cmd)) ≤ 2 ∧
          -2 ≤ q.x * (rotate_mod cmd) ∧ q.x * (rotate_mod cmd) ≤ 2 := by
        intro q hq
        have := hsm q hq
        unfold rotate_piece wrap8
        rcases rotate_mod_cases cmd with hm | hm <;> rw [hm] <;> simp only <;> omega
      refine ⟨?_, ?_, ?_⟩
      · intro q hq
        obtain ⟨q0, hq0, rfl⟩ := mem_rotate_pieces hq
        have := hrot q0 hq0
        rw [this.1, this.2.1]
        exact ⟨this.2.2.1, this.2.2.2.1, this.2.2.2.2.1, this.2.2.2.2.2⟩
      · have : rotate_piece (rotate_mod cmd) ⟨0, 0⟩ = (⟨0, 0⟩ : pieces) := by
          unfold rotate_piece wrap8; simp
        unfold has_pivot
        rw [← this]
        exact rotate_piece_mem hpv
      · intro q hq
        obtain ⟨q0, hq0, rfl⟩ := mem_rotate_pieces hq
        have h1 := hrot q0 hq0
        have h2 := blocked_at_false (hall q0 hq0)
        have ex : wrap8 (q0.y * (-(rotate_mod cmd)) + b.col_off)
            = (b.col_off : Int) + q0.y * (-(rotate_mod cmd)) := by
          generalize q0.y * (-(rotate_mod cmd)) = v at h1 ⊢
          unfold wrap8; omega
        have ey : wrap8 (q0.x * (rotate_mod cmd) + b.row_off)
            = (b.row_off : Int) + q0.x * (rotate_mod cmd) := by
          generalize q0.x * (rotate_mod cmd) = v at h1 ⊢
          unfold wrap8; omega
        rw [ex, ey] at h2
        show _ ∧ _ ∧ _ ∧ _ ∧ _
        rw [h1.1, h1.2.1]
        exact h2

theorem drop_block_keeps (g : block_game) (b : block)
    (hw : g.width = 10) (hh : g.height = 22) (hb : piece_ok g b) :
    piece_ok g (drop_block g b).2 := by
  obtain ⟨hsm, hpv, hon⟩ := hb
  rcases drop_block_on_board g b (by omega) (by omega)
    (fun q hq => by have := hsm q hq; omega) hon with ⟨hd, -⟩ | ⟨hd, hon'⟩
  · rw [hd]; exact ⟨hsm, hpv, hon⟩
  · rw [hd]; exact ⟨hsm, hpv, hon'⟩

theorem hard_drop_keeps (g : block_game) (hw : g.width = 10) (hh : g.height = 22) :
    ∀ (fuel : Nat) (b b' : block), piece_ok g b → hard_drop fuel g b = some b' →
      piece_ok g b' := by
  intro fuel
  induction fuel with
  | zero => intro b b' _ h; exact Option.noConfusion h
  | succ fuel ih =>
    intro b b' hb h
    rw [hard_drop] at h
    have hk := drop_block_keeps g b hw hh hb
    by_cases h1 : (drop_block g b).1 = 1
    · rw [if_pos h1] at h
      exact ih _ _ hk h
    · rw [if_neg h1] at h
      simp only [Option.some.injEq] at h
      rw [← h]; exact hk

theorem destroy_loop_hidden : ∀ (fuel : Nat) (g : block_game) (i d : Nat)
    (g' : block_game) (d' : Nat), i ≤ 127 → i < g.spaces.length →
    destroy_loop fuel g (i : Int) d = some (g', d') →
    g'.spaces.length = g.spaces.length ∧
    g'.spaces.getD 0 0 = g.spaces.getD 0 0 ∧
    (g'.spaces.getD 1 0 = g.spaces.getD 1 0 ∨ g'.spaces.getD 1 0 = g.spaces.getD 0 0) := by
  intro fuel
  induction fuel with
  | zero => intro g i d g' d' _ _ h; exact Option.noConfusion h
  | succ fuel ih =>
    intro g i d g' d' h127 hlen h
    by_cases h2 : 2 ≤ i
    · rcases Bool.eq_false_or_eq_true (row_full g.width (g.spaces.getD i 0)) with hf | hf
      · rw [destroy_loop_clear fuel g i d h2 h127 hf] at h
        have hsh := clear_row_getD g.spaces i hlen (by omega)
        obtain ⟨hl, hz, ho⟩ := ih _ i _ g' d' h127
          (by simp only [shift_down_length, List.length_set]; exact hlen) h
        simp only [shift_down_length, List.length_set] at hl
        simp only at hz ho
        have e0 := hsh 0
        have e1 := hsh 1
        rw [if_neg (show ¬ (1 ≤ 0 ∧ 0 ≤ i) from by omega)] at e0
        rw [if_pos (show (1 ≤ 1 ∧ 1 ≤ i) from ⟨le_refl _, by omega⟩)] at e1
        refine ⟨hl, by rw [hz, e0], Or.inr ?_⟩
        rcases ho with ho | ho
        · rw [ho, e1]
        · rw [ho, e0]
      · rw [destroy_loop_skip fuel g i d h2 h127 hf] at h
        exact ih g (i - 1) d g' d' (by omega) (by omega) h
    · rw [destroy_loop_exit fuel g i d (by omega)] at h
      simp only [Option.some.injEq, Prod.mk.injEq] at h
      rw [← h.1]
      exact ⟨rfl, rfl, Or.inl rfl⟩

theorem tally_frame (g : block_game) (d : Nat) :
    (tally g d).width = g.width ∧ (tally g d).height = g.height ∧
    (tally g d).cur = g.cur ∧ (tally g d).next = g.next ∧ (tally g d).save = g.save := by
  unfold tally; simp only; split <;> exact ⟨rfl, rfl, rfl, rfl, rfl⟩

theorem flag_loss_frame (g : block_game) :
    (flag_loss g).cur = g.cur ∧ (flag_loss g).next = g.next ∧
    (flag_loss g).save = g.save := by
  unfold flag_loss; split <;> exact ⟨rfl, rfl, rfl⟩

theorem write_block_frame (g : block_game) (b : block) :
    (write_block g b).cur = g.cur ∧ (write_block g b).next = g.next ∧
    (write_block g b).save = g.save := by
  unfold write_block; split
  · exact ⟨rfl, rfl, rfl⟩
  · simp [block.p, List.foldl]

/-- What `destroy_lines` keeps on a 10x22 board: the dimensions, the number of stored
rows and the three block pointers; a loss already flagged stays flagged; and if the game
is not lost afterwards, the hidden rows are free. -/
theorem destroy_lines_keeps (fuel : Nat) (g : block_game) (n : Nat) (g' : block_game)
    (hw : g.width = 10) (hh : g.height = 22) (hl : g.spaces.length = 22)
    (h : destroy_lines fuel g = some (n, g')) :
    g'.width = 10 ∧ g'.height = 22 ∧ g'.spaces.length = 22 ∧
    g'.cur = g.cur ∧ g'.next = g.next ∧ g'.save = g.save ∧
    (g'.lose = false → hidden_free g') := by
  unfold destroy_lines at h
  cases hr : destroy_loop fuel (flag_loss g) (wrap8 ((g.height : Int) - 1)) 0 with
  | none => rw [hr] at h; exact Option.noConfusion h
  | some r =>
    obtain ⟨gl, d⟩ := r
    rw [hr] at h
    simp only [Option.some.injEq, Prod.mk.injEq] at h
    obtain ⟨hd, hg⟩ := h
    subst hd
    have hfr := destroy_loop_frame fuel _ gl _ 0 d hr
    have hi : wrap8 ((g.height : Int) - 1) = ((21 : Nat) : Int) := by
      rw [hh]; decide
    rw [hi] at hr
    obtain ⟨hlen, hz, ho⟩ := destroy_loop_hidden fuel _ 21 0 gl d (by omega)
      (by rw [flag_loss_spaces, hl]; omega) hr
    rw [flag_loss_spaces] at hlen hz ho
    have hglw : gl.width = g.width := by rw [hfr]; exact flag_loss_width g
    have hglh : gl.height = g.height := by rw [hfr]; exact flag_loss_height g
    have hgll : gl.lose = (flag_loss g).lose := by rw [hfr]
    have hglc : gl.cur = g.cur ∧ gl.next = g.next ∧ gl.save = g.save := by
      rw [hfr]; exact flag_loss_frame g
    obtain ⟨t1, t2, t3, t4, t5⟩ := tally_frame gl d
    rw [← hg]
    refine ⟨by rw [t1, hglw, hw], by rw [t2, hglh, hh], by rw [tally_spaces, hlen, hl],
      by rw [t3, hglc.1], by rw [t4, hglc.2.1], by rw [t5, hglc.2.2], ?_⟩
    intro hlose
    rw [tally_lose, hgll, flag_loss_lose] at hlose
    have hocc : hidden_rows_occupied g = false := by
      rcases Bool.eq_false_or_eq_true (hidden_rows_occupied g) with hc | hc
      · rw [hc] at hlose; exact Bool.noConfusion hlose
      · exact hc
    have hfree : hidden_free g := by
      intro i j hi hj
      by_contra hc
      have := (hidden_rows_occupied_iff g).mpr ⟨i, j, hi, hj, hc⟩
      rw [hocc] at this; exact Bool.noConfusion this
    intro i j hi2 hj
    rw [t1, hglw] at hj
    unfold blocks_at_yx
    rw [tally_spaces, Int.toNat_ofNat, Int.toNat_ofNat]
    have h0 := hfree 0 j (by omega) hj
    have h1 := hfree 1 j (by omega) hj
    unfold blocks_at_yx at h0 h1
    simp only [Int.toNat_ofNat] at h0 h1
    have hi01 : i = 0 ∨ i = 1 := by omega
    rcases hi01 with rfl | rfl
    · rw [hz]; exact h0
    · rcases ho with ho | ho <;> rw [ho] <;> assumption

theorem good_set_cur (s : session) (b : block) (hg : good s) (hb : piece_ok s.game b) :
    good (s.set_block s.game.cur b) := by
  obtain ⟨hw, hh, hl, hcn, hsv, hfresh, hfree, -, -, -⟩ := hg
  unfold good
  rw [set_block_game, set_block_same]
  refine ⟨hw, hh, hl, hcn, hsv, ?_, hfree, hb.1, hb.2.1, hb.2.2⟩
  intro i hi
  rw [set_block_other s _ i b hi]
  exact hfresh i hi

theorem good_piece_ok (s : session) (hg : good s) : piece_ok s.game (s.blocks s.game.cur) :=
  ⟨hg.2.2.2.2.2.2.2.1, hg.2.2.2.2.2.2.2.2.1, hg.2.2.2.2.2.2.2.2.2⟩

/-- A key never touches the `lose` flag and keeps the invariant. -/
theorem blocks_input_keeps (fuel : Nat) (k : key) (s s' : session)
    (h : blocks_input fuel k s = some s') :
    s'.game.lose = s.game.lose ∧ (good s → good s') := by
  cases k with
  | A =>
    simp only [blocks_input, Option.some.injEq] at h
    subst h
    exact ⟨by rw [set_block_game], fun hg => good_set_cur s _ hg
      (translate_block_keeps _ _ _ hg.1 hg.2.1 (good_piece_ok s hg))⟩
  | D =>
    simp only [blocks_input, Option.some.injEq] at h
    subst h
    exact ⟨by rw [set_block_game], fun hg => good_set_cur s _ hg
      (translate_block_keeps _ _ _ hg.1 hg.2.1 (good_piece_ok s hg))⟩
  | S =>
    simp only [blocks_input, Option.some.injEq] at h
    subst h
    exact ⟨by rw [set_block_game], fun hg => good_set_cur s _ hg
      (drop_block_keeps _ _ hg.1 hg.2.1 (good_piece_ok s hg))⟩
  | W =>
    simp only [blocks_input] at h
    cases hd : hard_drop fuel s.game (s.blocks s.game.cur) with
    | none => rw [hd] at h; exact Option.noConfusion h
    | some b' =>
      rw [hd] at h
      simp only [Option.map_some', Option.some.injEq] at h
      subst h
      exact ⟨by rw [set_block_game], fun hg => good_set_cur s _ hg
        (hard_drop_keeps _ hg.1 hg.2.1 fuel _ _ (good_piece_ok s hg) hd)⟩
  | Q =>
    simp only [blocks_input, Option.some.injEq] at h
    subst h
    exact ⟨by rw [set_block_game], fun hg => good_set_cur s _ hg
      (rotate_block_keeps _ _ _ hg.1 hg.2.1 (good_piece_ok s hg))⟩
  | E =>
    simp only [blocks_input, Option.some.injEq] at h
    subst h
    exact ⟨by rw [set_block_game], fun hg => good_set_cur s _ hg
      (rotate_block_keeps _ _ _ hg.1 hg.2.1 (good_piece_ok s hg))⟩
  | SPACE =>
    simp only [blocks_input, Option.some.injEq] at h
    subst h
    refine ⟨rfl, fun hg => ?_⟩
    obtain ⟨hw, hh, hl, hcn, hsv, hfresh, hfree, hsm, hpv, hon⟩ := hg
    refine ⟨hw, hh, hl, ?_, ?_, hfresh, hfree, hsm, hpv, hon⟩
    · show s.game.cur ≠ (hold_swap s.game).next
      unfold hold_swap
      cases hs : s.game.save with
      | none => rw [hs] at hsv; exact hsv.1
      | some i => rw [hs] at hsv; exact fun hc => hsv.1 hc.symm
    · show (match (hold_swap s.game).save with
        | none => (hold_swap s.game).cur ≠ 2 ∧ (hold_swap s.game).next ≠ 2
        | some i => i ≠ (hold_swap s.game).cur ∧ i ≠ (hold_swap s.game).next)
      unfold hold_swap
      cases hs : s.game.save with
      | none => rw [hs] at hsv; exact ⟨fun hc => hcn hc.symm, hsv.2⟩
      | some i => rw [hs] at hsv; exact ⟨fun hc => hcn hc.symm, fun hc => hsv.2 hc.symm⟩
  | P =>
    simp only [blocks_input, Option.some.injEq] at h
    subst h
    exact ⟨rfl, fun hg => hg⟩
  | F3 =>
    simp only [blocks_input, Option.some.injEq] at h
    subst h
    exact ⟨rfl, fun hg => hg⟩
  | other =>
    simp only [blocks_input, Option.some.injEq] at h
    subst h
    exact ⟨rfl, fun hg => hg⟩

theorem update_cur_next_game (r : Nat) (s : session) :
    (update_cur_next r s).game = { s.game with cur := s.game.next, next := s.game.cur } := by
  unfold update_cur_next; simp only; rw [set_block_game]

theorem update_cur_next_new (r : Nat) (s : session) :
    (update_cur_next r s).blocks s.game.cur
      = random_block s.game.width r (s.blocks s.game.cur) := by
  unfold update_cur_next; simp only; rw [set_block_same]; rfl

theorem update_cur_next_old (r : Nat) (s : session) (i : Fin 3) (h : i ≠ s.game.cur) :
    (update_cur_next r s).blocks i = s.blocks i := by
  unfold update_cur_next; simp only; rw [set_block_other _ _ i _ h]; rfl

/-- The critical section of the clock tick keeps the invariant, or flags the loss. -/
theorem lock_or_drop_keeps (fuel r : Nat) (s s' : session) (hg : good s)
    (h : lock_or_drop fuel r s = some s') : s'.game.lose = true ∨ good s' := by
  unfold lock_or_drop at h
  by_cases h0 : (drop_block s.game (s.blocks s.game.cur)).1 = 0
  · rw [if_pos h0] at h
    cases hd : destroy_lines fuel (write_block s.game (s.blocks s.game.cur)) with
    | none => rw [hd] at h; exact Option.noConfusion h
    | some res =>
      obtain ⟨n, g2⟩ := res
      rw [hd] at h
      simp only [Option.some.injEq] at h
      subst h
      obtain ⟨hw, hh, hl, hcn, hsv, hfresh, -, -, -, -⟩ := hg
      obtain ⟨fc, fn, fs⟩ := write_block_frame s.game (s.blocks s.game.cur)
      obtain ⟨kw, kh, kl, kc, kn, ks, kfree⟩ := destroy_lines_keeps fuel _ n g2
        (by rw [write_block_width, hw]) (by rw [write_block_height, hh])
        (by rw [write_block_length, hl]) hd
      rw [fc] at kc; rw [fn] at kn; rw [fs] at ks
      rcases Bool.eq_false_or_eq_true g2.lose with hlose | hlose
      · left; rw [update_cur_next_game]; exact hlose
      · right
        have hfree := kfree hlose
        have hgame := update_cur_next_game r { s with game := g2 }
        have hnew := update_cur_next_new r { s with game := g2 }
        have hold := update_cur_next_old r { s with game := g2 }
        simp only at hgame hnew hold
        have hcur' : (update_cur_next r { s with game := g2 }).game.cur = s.game.next := by
          rw [hgame]; exact kn
        have hnext' : (update_cur_next r { s with game := g2 }).game.next = s.game.cur := by
          rw [hgame]; exact kc
        have hsave' : (update_cur_next r { s with game := g2 }).game.save = s.game.save := by
          rw [hgame]; exact ks
        have hw' : (update_cur_next r { s with game := g2 }).game.width = 10 := by
          rw [hgame]; exact kw
        have hh' : (update_cur_next r { s with game := g2 }).game.height = 22 := by
          rw [hgame]; exact kh
        have hl' : (update_cur_next r { s with game := g2 }).game.spaces.length = 22 := by
          rw [hgame]; exact kl
        have hfree' : hidden_free (update_cur_next r { s with game := g2 }).game := by
          rw [hgame]; exact hfree
        have hblk : ∀ i, i ≠ s.game.cur →
            (update_cur_next r { s with game := g2 }).blocks i = s.blocks i := by
          intro i hi
          exact hold i (by rw [kc]; exact hi)
        have hspawn : spawned ((update_cur_next r { s with game := g2 }).blocks s.game.next) := by
          rw [hblk _ (fun hc => hcn hc.symm)]
          exact hfresh _ (fun hc => hcn hc.symm)
        obtain ⟨a1, a2, a3⟩ := spawned_on_board _ _ hw' hh' hfree' hspawn
        unfold good
        rw [hcur', hnext', hsave', hw', hh', hl']
        refine ⟨rfl, rfl, rfl, fun hc => hcn hc.symm, ?_, ?_, hfree', a1, a2, a3⟩
        · cases hs : s.game.save with
          | none => rw [hs] at hsv; exact ⟨hsv.2, hsv.1⟩
          | some i => rw [hs] at hsv; exact ⟨hsv.2, hsv.1⟩
        · intro i hi
          by_cases hic : i = s.game.cur
          · subst hic
            have := hnew
            rw [kc, kw] at this
            rw [this]
            exact random_block_spawned r _
          · rw [hblk i hic]; exact hfresh i hic
  · rw [if_neg h0] at h
    simp only [Option.some.injEq] at h
    subst h
    exact Or.inr (good_set_cur s _ hg
      (drop_block_keeps _ _ hg.1 hg.2.1 (good_piece_ok s hg)))

theorem blocks_init_good (t0 t1 t2 c0 c1 c2 : Nat) : good (blocks_init t0 t1 t2 c0 c1 c2) := by
  have hfree : hidden_free (blocks_init t0 t1 t2 c0 c1 c2).game := by
    intro i j hi hj
    have hi01 : i = 0 ∨ i = 1 := by omega
    rcases hi01 with rfl | rfl <;> simp [blocks_at_yx, blocks_init, BLOCKS_ROWS]
  have hsp : ∀ i, spawned ((blocks_init t0 t1 t2 c0 c1 c2).blocks i) := by
    intro i
    have hv : i.val = 0 ∨ i.val = 1 ∨ i.val = 2 := by omega
    rcases hv with hv | hv | hv
    · have : (blocks_init t0 t1 t2 c0 c1 c2).blocks i
          = { random_block 10 t0 zero_block with color := c0 % 256 } := by
        unfold session.blocks; rw [if_pos hv]; rfl
      rw [this]
      exact spawned_congr rfl rfl rfl (random_block_spawned t0 zero_block)
    · have : (blocks_init t0 t1 t2 c0 c1 c2).blocks i
          = { random_block 10 t1 zero_block with color := c1 % 256 } := by
        unfold session.blocks; rw [if_neg (by omega), if_pos hv]; rfl
      rw [this]
      exact spawned_congr rfl rfl rfl (random_block_spawned t1 zero_block)
    · have : (blocks_init t0 t1 t2 c0 c1 c2).blocks i
          = { random_block 10 t2 zero_block with color := c2 % 256 } := by
        unfold session.blocks; rw [if_neg (by omega), if_neg (by omega)]; rfl
      rw [this]
      exact spawned_congr rfl rfl rfl (random_block_spawned t2 zero_block)
  obtain ⟨a1, a2, a3⟩ := spawned_on_board _ _ rfl rfl hfree
    (hsp (blocks_init t0 t1 t2 c0 c1 c2).game.cur)
  have hc01 : ((0 : Fin 3) ≠ 1) ∧ ((0 : Fin 3) ≠ 2) ∧ ((1 : Fin 3) ≠ 2) := by decide
  exact ⟨rfl, rfl, rfl, hc01.1, ⟨hc01.2.1, hc01.2.2⟩, fun i _ => hsp i, hfree, a1, a2, a3⟩

/-- Every reachable session is lost or satisfies the invariant. -/
theorem reachable_good (s : session) (h : reachable s) : s.game.lose = true ∨ good s := by
  induction h with
  | init t0 t1 t2 c0 c1 c2 => exact Or.inr (blocks_init_good t0 t1 t2 c0 c1 c2)
  | next s s' _ hstep ih =>
    cases hstep with
    | input fuel k _ _ hk =>
      obtain ⟨hl, hk'⟩ := blocks_input_keeps fuel k s s' hk
      rcases ih with ih | ih
      · left; rw [hl]; exact ih
      · right; exact hk' ih
    | tick fuel r _ _ ht =>
      unfold blocks_main_tick at ht
      by_cases hp : s.game.pause = true
      · rw [if_pos hp] at ht
        simp only [Option.some.injEq] at ht
        subst ht; exact ih
      · rw [if_neg hp] at ht
        by_cases hq : (s.game.lose || s.game.quit) = true
        · rw [if_pos hq] at ht
          simp only [Option.some.injEq] at ht
          subst ht; exact ih
        · rw [if_neg hq] at ht
          rcases ih with ih | ih
          · rw [ih] at hq; exact absurd rfl hq
          · exact lock_or_drop_keeps fuel r s s' ih ht
    | raced_tick fuel r _ _ hlose ht =>
      rcases ih with ih | ih
      · rw [ih] at hlose; exact Bool.noConfusion hlose
      · exact lock_or_drop_keeps fuel r s s' ih ht

/-- C10. In every session reachable from `blocks_init` (empty 10x22 board, three freshly
spawned blocks, any `rand ()` values) by any sequence of keys (translate left/right, soft
drop, hard drop, rotate either way, hold swap, and also pause, quit and unbound keys) and
clock ticks (drop the current block or, when it is blocked, `write_block`,
`destroy_lines` and `update_cur_next` with an arbitrary new shape), either the `lose` flag
is set or all four cells of the current block (pivot + offset, in exact integers) are
inside the board and on unoccupied cells. -/
theorem reachable_cur_on_board (s : session) (h : reachable s) :
    s.game.lose = true ∨ on_board s.game (s.blocks s.game.cur) := by
  rcases reachable_good s h with hl | hg
  · exact Or.inl hl
  · exact Or.inr hg.2.2.2.2.2.2.2.2.2

theorem reachable_cur_on_board_witness :
    reachable demo_locked ∧
    demo_locked.game.spaces.getD 21 0 = 48 ∧
    demo_locked.game.cur = 1 ∧
    (demo_locked.game.lose = true ∨
      on_board demo_locked.game (demo_locked.blocks demo_locked.game.cur)) :=
  have h1 : blocks_input 22 key.W (blocks_init 0 1 2 3 4 5) = some demo_dropped := by decide
  have h2 : blocks_main_tick 45 6 demo_dropped = some demo_locked := by decide
  have hr : reachable demo_locked :=
    reachable.next _ _
      (reachable.next _ _ (reachable.init 0 1 2 3 4 5) (step.input 22 key.W _ _ h1))
      (step.tick 45 6 _ _ h2)
  ⟨hr, by decide, by decide, reachable_cur_on_board demo_locked hr⟩

/-! ## C11: the range of the offsets -/

/-- Each of the seven shapes `random_block` produces has its four offsets in `[-1, 2]`
on both axes, whatever the board width, the value of `rand ()` and the block before. -/
theorem random_block_offsets (w r : Nat) (b : block) :
    ∀ q ∈ (random_block w r b).p, -1 ≤ q.x ∧ q.x ≤ 2 ∧ -1 ≤ q.y ∧ q.y ≤ 2 := by
  have ht : (r % 256) % 7 < 7 := Nat.mod_lt _ (by decide)
  unfold random_block
  simp only [NUM_BLOCKS]
  generalize (r % 256) % 7 = t at ht
  interval_cases t <;> simp [block.p, SQUARE_BLOCK, LINE_BLOCK, T_BLOCK, L_BLOCK,
    L_REV_BLOCK, Z_BLOCK, Z_REV_BLOCK]

/-- Every call of `rotate_block` keeps offsets that are in `[-2, 2]` on both axes in
`[-2, 2]`. -/
theorem rotate_block_small_offsets (g : block_game) (b : block) (cmd : block_cmd)
    (hsm : small_offsets b) : small_offsets (rotate_block g b cmd).2 := by
  by_cases hsq : b.type = SQUARE_BLOCK
  · rw [rotate_block_square hsq]; exact hsm
  · by_cases hany : b.p.any (fun q =>
        blocked_at g (wrap8 (q.y * (-(rotate_mod cmd)) + b.col_off))
          (wrap8 (q.x * (rotate_mod cmd) + b.row_off))) = true
    · rw [rotate_block_reject hsq hany]; exact hsm
    · rw [rotate_block_commit hsq hany]
      intro q hq
      obtain ⟨q0, hq0, rfl⟩ := mem_rotate_pieces hq
      have := hsm q0 hq0
      unfold rotate_piece wrap8
      rcases rotate_mod_cases cmd with hm | hm <;> rw [hm] <;> simp only <;> omega

/-- C11, the code at the failing input.  After `blocks_init` with the line as current
block and two soft drops (a reachable session), the offsets of the line are those of
`random_block`, all within `[-1, 2]`; `rotate_block` counter-clockwise then succeeds
(returns `1`) and rewrites the offsets to `(0,1), (0,0), (0,-1), (0,-2)`: the last one
has `y = -2`, outside `[-1, 2]`. -/
theorem rotate_line_leaves_range :
    reachable demo_line_session ∧
    (∀ q ∈ (demo_line_session.blocks demo_line_session.game.cur).p,
      -1 ≤ q.x ∧ q.x ≤ 2 ∧ -1 ≤ q.y ∧ q.y ≤ 2) ∧
    rotate_block demo_line_session.game
        (demo_line_session.blocks demo_line_session.game.cur)
        block_cmd.MOVE_COUNTER_CLOCKWISE
      = (1, { demo_line_session.blocks demo_line_session.game.cur with
                p0 := ⟨0, 1⟩, p1 := ⟨0, 0⟩, p2 := ⟨0, -1⟩, p3 := ⟨0, -2⟩ }) ∧
    ¬ (∀ q ∈ (rotate_block demo_line_session.game
          (demo_line_session.blocks demo_line_session.game.cur)
          block_cmd.MOVE_COUNTER_CLOCKWISE).2.p,
        -1 ≤ q.x ∧ q.x ≤ 2 ∧ -1 ≤ q.y ∧ q.y ≤ 2) :=
  have h1 : blocks_input 0 key.S (blocks_init 1 0 2 3 4 5)
      = some ((blocks_input 0 key.S (blocks_init 1 0 2 3 4 5)).getD
          (blocks_init 1 0 2 3 4 5)) := by decide
  have h2 : blocks_input 0 key.S ((blocks_input 0 key.S (blocks_init 1 0 2 3 4 5)).getD
      (blocks_init 1 0 2 3 4 5)) = some demo_line_session := by decide
  ⟨reachable.next _ _
      (reachable.next _ _ (reachable.init 1 0 2 3 4 5) (step.input 0 key.S _ _ h1))
      (step.input 0 key.S _ _ h2),
   by decide, by decide, by decide⟩

/-! ## C12: termination of `destroy_lines` -/

/-- The row loop never finishes on a board whose rows 0, 1 and 2 are full when it scans
from an index `i >= 2` with no full row in `3 .. i`: it comes down to row 2, destroys it,
and the shift puts the old rows 0, 0, 1 (all full) back into rows 0, 1, 2; row 0 is never
zeroed.  No bound on the iterations is enough. -/
theorem destroy_loop_stuck : ∀ (fuel : Nat) (g : block_game) (i d : Nat),
    2 ≤ i → i ≤ 127 → i < g.spaces.length →
    row_full g.width (g.spaces.getD 0 0) = true →
    row_full g.width (g.spaces.getD 1 0) = true →
    row_full g.width (g.spaces.getD 2 0) = true →
    (∀ k, 3 ≤ k → k ≤ i → row_full g.width (g.spaces.getD k 0) = false) →
    destroy_loop fuel g (i : Int) d = none := by
  intro fuel
  induction fuel with
  | zero => intro g i d _ _ _ _ _ _ _; rfl
  | succ fuel ih =>
    intro g i d h2 h127 hlen h0 h1 hr2 hrest
    by_cases hi : i = 2
    · subst hi
      rw [destroy_loop_clear fuel g 2 d (le_refl _) h127 hr2]
      have hsh := clear_row_getD g.spaces 2 hlen (by omega)
      have e0 := hsh 0
      have e1 := hsh 1
      have e2 := hsh 2
      rw [if_neg (show ¬ (1 ≤ 0 ∧ 0 ≤ 2) from by omega)] at e0
      rw [if_pos (show (1 ≤ 1 ∧ 1 ≤ 2) from by omega)] at e1
      rw [if_pos (show (1 ≤ 2 ∧ 2 ≤ 2) from by omega)] at e2
      exact ih _ 2 _ (le_refl _) h127
        (by simp only [shift_down_length, List.length_set]; exact hlen)
        (by simp only; rw [e0]; exact h0)
        (by simp only; rw [e1]; exact h0)
        (by simp only; rw [e2]; exact h1)
        (fun k h3 hk => by omega)
    · rw [destroy_loop_skip fuel g i d h2 h127 (hrest i (by omega) (le_refl _))]
      exact ih g (i - 1) d (by omega) (by omega) (by omega) h0 h1 hr2
        (fun k h3 hk => hrest k h3 (by omega))

/-- C12, the code at the failing input.  On the 10x22 board whose rows 0, 1 and 2 are full
and whose other rows are empty, `destroy_lines` does not terminate: whatever bound is put
on the iterations of its row loop, the bound is used up before the loop is left (the
model returns `none` for every `fuel`).  The scan comes down to row 2, and from then on
every iteration destroys row 2 and shifts full rows back into it. -/
theorem destroy_lines_never_returns (fuel : Nat) :
    destroy_lines fuel demo_stuck_game = none := by
  have hi : wrap8 ((demo_stuck_game.height : Int) - 1) = ((21 : Nat) : Int) := by decide
  have hrun := destroy_loop_stuck fuel (flag_loss demo_stuck_game) 21 0 (by omega) (by omega)
    (by rw [flag_loss_spaces]; decide)
    (by rw [flag_loss_spaces, flag_loss_width]; decide)
    (by rw [flag_loss_spaces, flag_loss_width]; decide)
    (by rw [flag_loss_spaces, flag_loss_width]; decide)
    (fun k h3 hk => by
      rw [flag_loss_spaces, flag_loss_width]
      interval_cases k <;> decide)
  unfold destroy_lines
  rw [hi, hrun]

/-! ## C13: the colour grid -/

theorem flag_loss_colors (g : block_game) : (flag_loss g).colors = g.colors := by
  unfold flag_loss; split <;> rfl

theorem tally_colors (g : block_game) (d : Nat) : (tally g d).colors = g.colors := by
  unfold tally; simp only; split <;> rfl

/-- What `tally` may change: `lines_destroyed`, `level` and `score`, nothing else. -/
theorem tally_only (g : block_game) (d : Nat) :
    tally g d = { g with lines_destroyed := (tally g d).lines_destroyed,
                         level := (tally g d).level, score := (tally g d).score } := by
  unfold tally; simp only; split <;> rfl

/-- C13. For every game and every call of `destroy_lines` that returns (in `n` destroyed
rows and the new game `g'`): the colour grid of `g'` is the colour grid before the call,
so the colour recorded at every cell (row, column) is unchanged, also when rows were
destroyed and the occupancy rows above them shifted down.  The call changes at most the
occupancy rows `spaces`, `lines_destroyed`, `level`, `score` and the `lose` flag (the
tick delay `nsec`, which `update_tick_speed` rewrites on a level-up, is outside the
embedding).  And on every board of at most 127 stored rows whose row 0 is not full the
call does return, with the colour grid as it was. -/
theorem destroy_lines_colors (g : block_game) :
    (∀ (fuel n : Nat) (g' : block_game), destroy_lines fuel g = some (n, g') →
      g'.colors = g.colors ∧
      (∀ row col : Nat,
        (g'.colors.getD row []).getD col 0 = (g.colors.getD row []).getD col 0) ∧
      g' = { g with spaces := g'.spaces, lines_destroyed := g'.lines_destroyed,
                    level := g'.level, score := g'.score, lose := g'.lose }) ∧
    (g.height ≤ g.spaces.length → g.height ≤ 127 →
      row_full g.width (g.spaces.getD 0 0) = false →
      ∃ n g', destroy_lines (2 * g.height + 1) g = some (n, g') ∧ g'.colors = g.colors) := by
  have key : ∀ (fuel n : Nat) (g' : block_game), destroy_lines fuel g = some (n, g') →
      g'.colors = g.colors ∧
      g' = { g with spaces := g'.spaces, lines_destroyed := g'.lines_destroyed,
                    level := g'.level, score := g'.score, lose := g'.lose } := by
    intro fuel n g' h
    obtain ⟨s', rfl⟩ := destroy_lines_eq fuel g n g' h
    have hc : (tally { flag_loss g with spaces := s' } n).colors = g.colors := by
      rw [tally_colors]; exact flag_loss_colors g
    refine ⟨hc, ?_⟩
    have hf := flag_loss_eq g
    generalize (flag_loss g).lose = L at hf
    rw [hf]
    unfold tally; simp only; split <;> rfl
  constructor
  · intro fuel n g' h
    obtain ⟨hc, hfr⟩ := key fuel n g' h
    exact ⟨hc, fun row col => by rw [hc], hfr⟩
  · intro hlen h127 h0
    obtain ⟨n, g', hres⟩ := destroy_lines_returns g (2 * g.height + 1) hlen h127 h0
      (by omega)
    exact ⟨n, g', hres, (key _ n g' hres).1⟩

theorem destroy_lines_colors_witness :
    destroy_lines 45 (write_block demo_game demo_square)
      = some (1, { write_block demo_game demo_square with
          spaces := List.replicate 21 0 ++ [48], lines_destroyed := 1, score := 2 }) ∧
    ((write_block demo_game demo_square).colors.getD 21 []).getD 4 0 = 3 ∧
    (write_block demo_game demo_square).spaces = List.replicate 20 0 ++ [48, 1023] ∧
    ({ write_block demo_game demo_square with
          spaces := List.replicate 21 0 ++ [48], lines_destroyed := 1, score := 2 }
        : block_game).colors = (write_block demo_game demo_square).colors ∧
    (∃ n g', destroy_lines (2 * (write_block demo_game demo_square).height + 1)
        (write_block demo_game demo_square) = some (n, g') ∧
      g'.colors = (write_block demo_game demo_square).colors) :=
  ⟨by decide, by decide, by decide,
   ((destroy_lines_colors (write_block demo_game demo_square)).1 45 1
     { write_block demo_game demo_square with
          spaces := List.replicate 21 0 ++ [48], lines_destroyed := 1, score := 2 }
     (by decide)).1,
   (destroy_lines_colors (write_block demo_game demo_square)).2
     (by decide) (by decide) (by decide)⟩

end Tetris
